import Mathlib

/-!
Shallow embedding of the Poker-AI-Bot core (src/poker_ai_bot/core): the hand
evaluator (hand_evaluator.py), deck (deck.py), player (player.py) and game
state engine (game_state.py), together with theorems settling the frozen
claims about the specification.

Python integers are modelled as Int where subtraction can go below zero
(stacks, bets, pot) and as Nat where values are manifestly non-negative
(card rank values 2..14).  Python exceptions are modelled by Option / an
explicit outcome type; where an exception can leave partial mutation behind
(deal_flop's burn card), the outcome carries the state at raise time.
The random deck shuffle is modelled by passing the post-shuffle card order
as an explicit parameter.
-/

namespace PokerAI

/-- Suit enum from deck.py. -/
inductive Suit where
  | SPADES | HEARTS | DIAMONDS | CLUBS
deriving DecidableEq

/-- Rank enum from deck.py (symbol omitted; only the numeric value is used
by the core logic). -/
inductive Rank where
  | TWO | THREE | FOUR | FIVE | SIX | SEVEN | EIGHT | NINE | TEN
  | JACK | QUEEN | KING | ACE
deriving DecidableEq

/-- Rank.numeric_value from deck.py: 2..14, ace high. -/
def Rank.numeric_value : Rank → Nat
  | .TWO => 2 | .THREE => 3 | .FOUR => 4 | .FIVE => 5 | .SIX => 6
  | .SEVEN => 7 | .EIGHT => 8 | .NINE => 9 | .TEN => 10
  | .JACK => 11 | .QUEEN => 12 | .KING => 13 | .ACE => 14

/-- Card from deck.py: an immutable (rank, suit) pair with equality by
components. -/
structure Card where
  rank : Rank
  suit : Suit
deriving DecidableEq

/-- HandRank IntEnum from hand_evaluator.py, ascending strength. -/
inductive HandRank where
  | HIGH_CARD | ONE_PAIR | TWO_PAIR | THREE_OF_A_KIND | STRAIGHT
  | FLUSH | FULL_HOUSE | FOUR_OF_A_KIND | STRAIGHT_FLUSH | ROYAL_FLUSH
deriving DecidableEq

/-- The IntEnum numeric value of a HandRank (1..10), used by the Python
comparisons self.rank < other.rank. -/
def HandRank.val : HandRank → Nat
  | .HIGH_CARD => 1 | .ONE_PAIR => 2 | .TWO_PAIR => 3 | .THREE_OF_A_KIND => 4
  | .STRAIGHT => 5 | .FLUSH => 6 | .FULL_HOUSE => 7 | .FOUR_OF_A_KIND => 8
  | .STRAIGHT_FLUSH => 9 | .ROYAL_FLUSH => 10

/-- HandStrength from hand_evaluator.py: (rank, primary, secondary, kickers).
A missing kickers argument defaults to the empty list in the source; we pass
it explicitly everywhere. -/
structure HandStrength where
  rank : HandRank
  primary_value : Nat
  secondary_value : Nat
  kickers : List Nat
deriving DecidableEq

/-- The kicker comparison loop of HandStrength.__lt__: walk the zip of the
two kicker lists, return at the first differing pair, and return False when
the zip is exhausted. -/
def kickersLt : List Nat → List Nat → Bool
  | x :: xs, y :: ys => if x ≠ y then decide (x < y) else kickersLt xs ys
  | _, _ => false

/-- HandStrength.__lt__ from hand_evaluator.py. -/
def hsLt (a b : HandStrength) : Bool :=
  if a.rank ≠ b.rank then decide (a.rank.val < b.rank.val)
  else if a.primary_value ≠ b.primary_value then decide (a.primary_value < b.primary_value)
  else if a.secondary_value ≠ b.secondary_value then decide (a.secondary_value < b.secondary_value)
  else kickersLt a.kickers b.kickers

/-- HandStrength.__eq__ from hand_evaluator.py: all four components equal. -/
def hsEq (a b : HandStrength) : Bool :=
  decide (a.rank = b.rank) && decide (a.primary_value = b.primary_value) &&
  decide (a.secondary_value = b.secondary_value) && decide (a.kickers = b.kickers)

/-- HandStrength.__gt__ from hand_evaluator.py: not (self < other or self == other). -/
def hsGt (a b : HandStrength) : Bool :=
  !(hsLt a b || hsEq a b)

/-- Card to its numeric rank value, as used throughout the evaluator. -/
def cardValue (c : Card) : Nat := c.rank.numeric_value

/-- One step of the descending insertion sort modelling Python
sorted(..., reverse=True) on rank values. -/
def insertDesc (a : Nat) : List Nat → List Nat
  | [] => [a]
  | b :: bs => if a < b then b :: insertDesc a bs else a :: b :: bs

/-- Python sorted(values, reverse=True) on a list of numeric rank values. -/
def sortDesc (l : List Nat) : List Nat := l.foldr insertDesc []

/-- The keys of collections.Counter(values) in insertion order, i.e. the
distinct values in order of first occurrence. -/
def uniqueKeysAux (seen : List Nat) : List Nat → List Nat
  | [] => []
  | v :: vs => if v ∈ seen then uniqueKeysAux seen vs else v :: uniqueKeysAux (v :: seen) vs

/-- Distinct values of a list in first-occurrence order (Counter key order). -/
def counterKeys (l : List Nat) : List Nat := uniqueKeysAux [] l

/-- collections.Counter(values).items(): (value, multiplicity) pairs in
first-occurrence order. -/
def counterItems (l : List Nat) : List (Nat × Nat) :=
  (counterKeys l).map (fun v => (v, l.count v))

/-- HandEvaluator.is_flush: all cards share one suit (len(set(suits)) == 1),
false for fewer than 5 cards. -/
def is_flush (cards : List Card) : Bool :=
  if cards.length < 5 then false
  else decide ((cards.map Card.suit).dedup.length = 1)

/-- HandEvaluator.is_straight on the descending value list: the wheel
[14,5,4,3,2] is a straight, otherwise consecutive values must each drop
by exactly one. -/
def is_straight (values : List Nat) : Bool :=
  if values.length < 5 then false
  else if values = [14, 5, 4, 3, 2] then true
  else (values.zip values.tail).all (fun p => decide (p.1 - 1 = p.2))

/-- Python max(values) on a non-empty list (unreachable default 0 on []). -/
def listMax : List Nat → Nat
  | [] => 0
  | a :: as => as.foldr max a

/-- Python min(values) on a non-empty list (unreachable default 0 on []). -/
def listMin : List Nat → Nat
  | [] => 0
  | a :: as => as.foldr min a

/-- HandEvaluator.get_straight_high_card: 5 for the wheel, else max. -/
def get_straight_high_card (values : List Nat) : Nat :=
  if values = [14, 5, 4, 3, 2] then 5 else listMax values

/-- HandEvaluator._evaluate_five_cards from hand_evaluator.py.  Python
list indexing [0] on the provably non-empty selections is modelled by
headD with an unreachable default. -/
def evaluate_five_cards (cards : List Card) : HandStrength :=
  let values := sortDesc (cards.map cardValue)
  let items := counterItems values
  let isF := is_flush cards
  let isS := is_straight values
  if isF && isS && decide (listMax values = 14) && decide (listMin values = 10) then
    ⟨.ROYAL_FLUSH, 14, 0, []⟩
  else if isF && isS then
    ⟨.STRAIGHT_FLUSH, get_straight_high_card values, 0, []⟩
  else if items.any (fun it => decide (it.2 = 4)) then
    let quad_value := ((items.filter (fun it => decide (it.2 = 4))).map Prod.fst).headD 0
    let kicker := ((items.filter (fun it => decide (it.2 = 1))).map Prod.fst).headD 0
    ⟨.FOUR_OF_A_KIND, quad_value, 0, [kicker]⟩
  else if (items.any (fun it => decide (it.2 = 3))) && (items.any (fun it => decide (it.2 = 2))) then
    let trips_value := ((items.filter (fun it => decide (it.2 = 3))).map Prod.fst).headD 0
    let pair_value := ((items.filter (fun it => decide (it.2 = 2))).map Prod.fst).headD 0
    ⟨.FULL_HOUSE, trips_value, pair_value, []⟩
  else if isF then
    ⟨.FLUSH, 0, 0, values⟩
  else if isS then
    ⟨.STRAIGHT, get_straight_high_card values, 0, []⟩
  else if items.any (fun it => decide (it.2 = 3)) then
    let trips_value := ((items.filter (fun it => decide (it.2 = 3))).map Prod.fst).headD 0
    let kickers := sortDesc ((items.filter (fun it => decide (it.2 = 1))).map Prod.fst)
    ⟨.THREE_OF_A_KIND, trips_value, 0, kickers⟩
  else
    let pairs := (items.filter (fun it => decide (it.2 = 2))).map Prod.fst
    if pairs.length = 2 then
      let ps := sortDesc pairs
      let kicker := ((items.filter (fun it => decide (it.2 = 1))).map Prod.fst).headD 0
      ⟨.TWO_PAIR, ps.headD 0, (ps.drop 1).headD 0, [kicker]⟩
    else if pairs.length = 1 then
      let kickers := sortDesc ((items.filter (fun it => decide (it.2 = 1))).map Prod.fst)
      ⟨.ONE_PAIR, pairs.headD 0, 0, kickers⟩
    else
      ⟨.HIGH_CARD, 0, 0, values⟩

/-- itertools.combinations in the order produced by Python: subsets of the
given size, positions in lexicographic order. -/
def combinations : Nat → List Card → List (List Card)
  | 0, _ => [[]]
  | _ + 1, [] => []
  | n + 1, x :: xs => (combinations n xs).map (x :: ·) ++ combinations (n + 1) xs

/-- HandEvaluator.evaluate_hand: raises (none) on fewer than 5 cards, else
folds over all 5-card combinations keeping the strictly greater hand. -/
def evaluate_hand (cards : List Card) : Option HandStrength :=
  if cards.length < 5 then none
  else (combinations 5 cards).foldl
    (fun best five_cards =>
      let hand_strength := evaluate_five_cards five_cards
      match best with
      | none => some hand_strength
      | some b => if hsGt hand_strength b then some hand_strength else some b)
    none

/-! ### Player and actions (player.py) -/

/-- Action enum from player.py. -/
inductive Action where
  | FOLD | CALL | RAISE | CHECK | ALL_IN
deriving DecidableEq

/-- BettingRound enum from game_state.py. -/
inductive BettingRound where
  | PREFLOP | FLOP | TURN | RIVER
deriving DecidableEq

/-- ActionHistory from player.py: the actions and bets logs plus the four
per-round logs of the round_actions dict. -/
structure ActionHistory where
  actions : List (Action × Int)
  bets : List Int
  preflop : List (Action × Int)
  flop : List (Action × Int)
  turn : List (Action × Int)
  river : List (Action × Int)
deriving DecidableEq

def ActionHistory.empty : ActionHistory := ⟨[], [], [], [], [], []⟩

/-- ActionHistory.add_action: appends to actions and bets, and to the
per-round log selected by the round name (the engine always passes one of
the four round names). -/
def ActionHistory.add_action (h : ActionHistory) (a : Action) (amount : Int)
    (r : BettingRound) : ActionHistory :=
  let h1 := { h with actions := h.actions ++ [(a, amount)], bets := h.bets ++ [amount] }
  match r with
  | .PREFLOP => { h1 with preflop := h1.preflop ++ [(a, amount)] }
  | .FLOP => { h1 with flop := h1.flop ++ [(a, amount)] }
  | .TURN => { h1 with turn := h1.turn ++ [(a, amount)] }
  | .RIVER => { h1 with river := h1.river ++ [(a, amount)] }

/-- ActionHistory.clear. -/
def ActionHistory.clear (_h : ActionHistory) : ActionHistory := ActionHistory.empty

/-- Player from player.py (the abstract decide_action strategy is not part
of the state). -/
structure Player where
  name : String
  stack : Int
  hole_cards : List Card
  current_bet : Int
  folded : Bool
  all_in : Bool
  action_history : ActionHistory
deriving DecidableEq

/-- Player.bet: an amount strictly above the stack commits the whole stack
and sets all_in; otherwise the stack is debited by the full amount.
Returns the actual amount bet together with the updated player. -/
def Player.bet (p : Player) (amount : Int) : Int × Player :=
  if amount > p.stack then
    (p.stack, { p with stack := 0, all_in := true, current_bet := p.current_bet + p.stack })
  else
    (amount, { p with stack := p.stack - amount, current_bet := p.current_bet + amount })

/-- Player.fold. -/
def Player.fold (p : Player) : Player := { p with folded := true }

/-- Player.receive_cards: replaces the hole cards with a copy of the dealt
cards. -/
def Player.receive_cards (p : Player) (cards : List Card) : Player :=
  { p with hole_cards := cards }

/-- Player.reset_for_new_hand: clears per-hand state, keeps the stack. -/
def Player.reset_for_new_hand (p : Player) : Player :=
  { p with hole_cards := [], current_bet := 0, folded := false, all_in := false,
           action_history := p.action_history.clear }

/-! ### Deck (deck.py) -/

/-- Deck.deal: pops num_cards cards off the end of the card list, returning
them in pop order; raises (none) before any mutation when more cards are
requested than remain. -/
def dealCards (deck : List Card) (num_cards : Nat) : Option (List Card × List Card) :=
  if num_cards > deck.length then none
  else some (deck.reverse.take num_cards, (deck.reverse.drop num_cards).reverse)

def allRanks : List Rank :=
  [.TWO, .THREE, .FOUR, .FIVE, .SIX, .SEVEN, .EIGHT, .NINE, .TEN,
   .JACK, .QUEEN, .KING, .ACE]

def allSuits : List Suit := [.SPADES, .HEARTS, .DIAMONDS, .CLUBS]

/-- The 52-card deck in construction order (Card(rank, suit) for rank in
Rank for suit in Suit); an unshuffled Deck.reset result. -/
def standard52 : List Card :=
  (allRanks.map (fun r => allSuits.map (fun st => (⟨r, st⟩ : Card)))).flatten

/-! ### Game state engine (game_state.py) -/

/-- GameState from game_state.py. -/
structure GameState where
  players : List Player
  deck : List Card
  community_cards : List Card
  pot : Int
  side_pots : List Int
  current_bet : Int
  small_blind : Int
  big_blind : Int
  dealer_position : Nat
  current_round : BettingRound
  action_position : Nat
  hand_number : Nat
deriving DecidableEq

/-- The history-recording line of execute_action (game_state.py line 150),
applied to the already-updated acting player. -/
def GameState.recordAction (s : GameState) (i : Nat) (a : Action) (amount : Int) :
    GameState :=
  match s.players.get? i with
  | none => s
  | some p =>
    let p' := { p with action_history := p.action_history.add_action a amount s.current_round }
    { s with players := s.players.set i p' }

/-- GameState.execute_action: returns the validity flag and the updated
state.  The acting player is addressed by seat index (the Python code
mutates the player object it is handed by reference). -/
def GameState.execute_action (s : GameState) (i : Nat) (action : Action)
    (amount : Int) : Bool × GameState :=
  match s.players.get? i with
  | none => (false, s)
  | some p =>
    if p.folded || p.all_in then (false, s)
    else
      match action with
      | .FOLD =>
        (true, GameState.recordAction
          { s with players := s.players.set i p.fold } i action amount)
      | .CHECK =>
        if s.current_bet > p.current_bet then (false, s)
        else (true, GameState.recordAction s i action amount)
      | .CALL =>
        let amount_to_call := s.current_bet - p.current_bet
        if amount_to_call ≤ 0 then (false, s)
        else
          let r := p.bet amount_to_call
          (true, GameState.recordAction
            { s with players := s.players.set i r.2, pot := s.pot + r.1 } i action amount)
      | .RAISE =>
        let total_bet := s.current_bet + amount
        let amount_to_bet := total_bet - p.current_bet
        if amount_to_bet > p.stack then
          let r := p.bet p.stack
          (true, GameState.recordAction
            { s with players := s.players.set i r.2, pot := s.pot + r.1,
                     current_bet := r.2.current_bet } i action amount)
        else
          let r := p.bet amount_to_bet
          (true, GameState.recordAction
            { s with players := s.players.set i r.2, pot := s.pot + r.1,
                     current_bet := total_bet } i action amount)
      | .ALL_IN => (true, GameState.recordAction s i action amount)

/-- The seat-scanning while loop of reset_betting_round, with explicit
fuel: the Python loop advances cyclically until it finds a non-folded,
non-all-in player, spinning forever when there is none. -/
def findActiveFrom (ps : List Player) : Nat → Nat → Option Nat
  | _, 0 => none
  | pos, fuel + 1 =>
    match ps.get? pos with
    | none => none
    | some p =>
      if p.folded || p.all_in then findActiveFrom ps ((pos + 1) % ps.length) fuel
      else some pos

/-- GameState.reset_betting_round: zeroes the table bet and every player's
round bet, then scans for the first active seat after the dealer.  Fuel
equal to the seat count decides the loop: none means the Python loop never
terminates. -/
def GameState.reset_betting_round (s : GameState) : Option GameState :=
  let players' := s.players.map (fun p => { p with current_bet := 0 })
  let start := (s.dealer_position + 1) % players'.length
  match findActiveFrom players' start players'.length with
  | none => none
  | some pos =>
    some { s with current_bet := 0, players := players', action_position := pos }

/-- Outcome of a community-card deal: ok, or the InsufficientCards
exception raised with the state as mutated so far, or a hung
reset_betting_round loop. -/
inductive DealOutcome where
  | ok (s : GameState)
  | insufficient (s : GameState)
  | hang
deriving DecidableEq

/-- GameState.deal_flop: burn one card, deal three community cards, set the
round to FLOP and reset betting.  A failing deal raises InsufficientCards;
the burn happens first, so its mutation survives a failing 3-card deal. -/
def GameState.deal_flop (s : GameState) : DealOutcome :=
  match dealCards s.deck 1 with
  | none => .insufficient s
  | some (_, d1) =>
    let s1 := { s with deck := d1 }
    match dealCards s1.deck 3 with
    | none => .insufficient s1
    | some (cs, d2) =>
      let s2 := { s1 with deck := d2, community_cards := s1.community_cards ++ cs,
                          current_round := .FLOP }
      match s2.reset_betting_round with
      | none => .hang
      | some s3 => .ok s3

/-- GameState.deal_turn. -/
def GameState.deal_turn (s : GameState) : DealOutcome :=
  match dealCards s.deck 1 with
  | none => .insufficient s
  | some (_, d1) =>
    let s1 := { s with deck := d1 }
    match dealCards s1.deck 1 with
    | none => .insufficient s1
    | some (cs, d2) =>
      let s2 := { s1 with deck := d2, community_cards := s1.community_cards ++ cs,
                          current_round := .TURN }
      match s2.reset_betting_round with
      | none => .hang
      | some s3 => .ok s3

/-- GameState.deal_river. -/
def GameState.deal_river (s : GameState) : DealOutcome :=
  match dealCards s.deck 1 with
  | none => .insufficient s
  | some (_, d1) =>
    let s1 := { s with deck := d1 }
    match dealCards s1.deck 1 with
    | none => .insufficient s1
    | some (cs, d2) =>
      let s2 := { s1 with deck := d2, community_cards := s1.community_cards ++ cs,
                          current_round := .RIVER }
      match s2.reset_betting_round with
      | none => .hang
      | some s3 => .ok s3

/-- The deal_hole_cards loop: each non-folded player receives two cards. -/
def dealHoleCards : List Player → List Card → Option (List Player × List Card)
  | [], deck => some ([], deck)
  | p :: ps, deck =>
    if p.folded then
      match dealHoleCards ps deck with
      | none => none
      | some (ps', d') => some (p :: ps', d')
    else
      match dealCards deck 2 with
      | none => none
      | some (cs, d') =>
        match dealHoleCards ps d' with
        | none => none
        | some (ps', d'') => some (p.receive_cards cs :: ps', d'')

/-- GameState.post_blinds: small blind then big blind, each capped at the
player's stack; the table bet becomes the actual big-blind amount and the
first actor preflop sits after the big blind. -/
def GameState.post_blinds (s : GameState) : GameState :=
  let n := s.players.length
  let small_blind_pos := (s.dealer_position + 1) % n
  let big_blind_pos := (s.dealer_position + 2) % n
  match s.players.get? small_blind_pos with
  | none => s
  | some sbp =>
    let rsb := sbp.bet (min s.small_blind sbp.stack)
    let players1 := s.players.set small_blind_pos rsb.2
    match players1.get? big_blind_pos with
    | none => s
    | some bbp =>
      let rbb := bbp.bet (min s.big_blind bbp.stack)
      { s with players := players1.set big_blind_pos rbb.2,
               pot := s.pot + rsb.1 + rbb.1,
               current_bet := rbb.1,
               action_position := (big_blind_pos + 1) % n }

/-- GameState.start_new_hand: reset per-hand fields and players, deal two
hole cards to every player, post blinds.  The random Deck.reset shuffle is
modelled by the shuffled_deck parameter. -/
def GameState.start_new_hand (s : GameState) (shuffled_deck : List Card) :
    Option GameState :=
  let s1 := { s with
    hand_number := s.hand_number + 1,
    deck := shuffled_deck,
    community_cards := [],
    pot := 0,
    side_pots := ([] : List Int),
    current_bet := 0,
    current_round := BettingRound.PREFLOP,
    players := s.players.map Player.reset_for_new_hand }
  match dealHoleCards s1.players s1.deck with
  | none => none
  | some (ps, d) =>
    some (GameState.post_blinds { s1 with players := ps, deck := d })

/-- Reflexive-transitive closure of successful execute_action calls. -/
inductive ExecSeq : GameState → GameState → Prop where
  | refl (s : GameState) : ExecSeq s s
  | step (s1 s2 s3 : GameState) (i : Nat) (a : Action) (amount : Int) :
      ExecSeq s1 s2 → s2.execute_action i a amount = (true, s3) → ExecSeq s1 s3

/-! ### Showdown (game_state.py determine_winners) -/

/-- The pot-splitting loop of determine_winners: integer division with the
remainder distributed one chip at a time from the first winner on. -/
def splitPot (pot : Int) (winners : List Player) : List (Player × Int) :=
  let winnings_per_player := pot.fdiv (winners.length : Int)
  let remainder := pot.fmod (winners.length : Int)
  winners.enum.map
    (fun iw => (iw.2, winnings_per_player + if (iw.1 : Int) < remainder then 1 else 0))

/-- The hand-evaluation loop of determine_winners over the active players:
each player's hole cards plus the community cards are evaluated; an
evaluator exception propagates (none). -/
def evalHands : List Player → List Card → Option (List (Player × HandStrength))
  | [], _ => some []
  | p :: ps, community =>
    match evaluate_hand (p.hole_cards ++ community) with
    | none => none
    | some hs =>
      match evalHands ps community with
      | none => none
      | some rest => some ((p, hs) :: rest)

/-- One insertion step of the stable descending sort by hand strength. -/
def insertHandDesc (a : Player × HandStrength) :
    List (Player × HandStrength) → List (Player × HandStrength)
  | [] => [a]
  | b :: bs => if hsLt a.2 b.2 then b :: insertHandDesc a bs else a :: b :: bs

/-- Python player_hands.sort(key=strength, reverse=True): a stable
descending sort (equal strengths keep their seating order). -/
def sortHandsDesc (l : List (Player × HandStrength)) : List (Player × HandStrength) :=
  l.foldr insertHandDesc []

/-- GameState.determine_winners: a single non-folded player takes the pot;
otherwise the tied best hands split it via splitPot.  none models the
Python exceptions on evaluator misuse or an empty active list. -/
def GameState.determine_winners (s : GameState) : Option (List (Player × Int)) :=
  let active_players := s.players.filter (fun p => !p.folded)
  match active_players with
  | [winner] => some [(winner, s.pot)]
  | _ =>
    match evalHands active_players s.community_cards with
    | none => none
    | some player_hands =>
      match sortHandsDesc player_hands with
      | [] => none
      | ph :: rest =>
        let winners := ((ph :: rest).takeWhile (fun q => hsEq q.2 ph.2)).map Prod.fst
        some (splitPot s.pot winners)

/-! ### Concrete fixtures used by the claims -/

def mkPlayer (nm : String) (stack : Int) (hole : List Card) : Player :=
  ⟨nm, stack, hole, 0, false, false, ActionHistory.empty⟩

/-- Board giving every player a royal flush, for the three-way tie. -/
def royalCommunity : List Card :=
  [⟨.ACE, .SPADES⟩, ⟨.KING, .SPADES⟩, ⟨.QUEEN, .SPADES⟩, ⟨.JACK, .SPADES⟩, ⟨.TEN, .SPADES⟩]

/-- Three players tied on a board royal flush with a pot of 100. -/
def tie3State : GameState :=
  { players := [mkPlayer "P1" 500 [⟨.TWO, .HEARTS⟩, ⟨.THREE, .HEARTS⟩],
                mkPlayer "P2" 500 [⟨.TWO, .DIAMONDS⟩, ⟨.THREE, .DIAMONDS⟩],
                mkPlayer "P3" 500 [⟨.TWO, .CLUBS⟩, ⟨.THREE, .CLUBS⟩]],
    deck := [], community_cards := royalCommunity, pot := 100, side_pots := [],
    current_bet := 0, small_blind := 10, big_blind := 20, dealer_position := 0,
    current_round := .RIVER, action_position := 0, hand_number := 1 }

/-- One active player with a 50-chip stack facing no bet, for the
over-stack raise. -/
def raiseShortState : GameState :=
  { players := [mkPlayer "P1" 50 []],
    deck := [], community_cards := [], pot := 0, side_pots := [],
    current_bet := 0, small_blind := 10, big_blind := 20, dealer_position := 0,
    current_round := .PREFLOP, action_position := 0, hand_number := 1 }

/-- Two players, the big blind short-stacked at 5 against a nominal big
blind of 20, dealer at seat 0 (so seat 1 posts the small blind and seat 0
the big blind). -/
def shortBlindState : GameState :=
  { players := [mkPlayer "P1" 5 [], mkPlayer "P2" 100 []],
    deck := [], community_cards := [], pot := 0, side_pots := [],
    current_bet := 0, small_blind := 10, big_blind := 20, dealer_position := 0,
    current_round := .PREFLOP, action_position := 0, hand_number := 0 }

/-- The state produced by starting a hand of shortBlindState from a fresh
standard deck. -/
def shortBlindStarted : GameState :=
  (shortBlindState.start_new_hand standard52).getD shortBlindState

/-- A state whose deck holds only three cards, for the failing flop. -/
def threeCardDeckState : GameState :=
  { players := [mkPlayer "P1" 100 [], mkPlayer "P2" 100 []],
    deck := [⟨.TWO, .HEARTS⟩, ⟨.THREE, .HEARTS⟩, ⟨.FOUR, .HEARTS⟩],
    community_cards := [], pot := 0, side_pots := [],
    current_bet := 0, small_blind := 10, big_blind := 20, dealer_position := 0,
    current_round := .PREFLOP, action_position := 0, hand_number := 1 }

/-- A folded player and an all-in player plus one active player. -/
def mixedFlagsState : GameState :=
  { players := [{ mkPlayer "P1" 100 [] with folded := true },
                { mkPlayer "P2" 100 [] with all_in := true },
                mkPlayer "P3" 100 []],
    deck := [], community_cards := [], pot := 30, side_pots := [],
    current_bet := 20, small_blind := 10, big_blind := 20, dealer_position := 0,
    current_round := .FLOP, action_position := 2, hand_number := 1 }

/-- Every player folded or all-in: the reset loop spins forever. -/
def allStuckState : GameState :=
  { players := [{ mkPlayer "P1" 100 [] with folded := true },
                { mkPlayer "P2" 0 [] with all_in := true }],
    deck := standard52, community_cards := [], pot := 200, side_pots := [],
    current_bet := 0, small_blind := 10, big_blind := 20, dealer_position := 0,
    current_round := .FLOP, action_position := 0, hand_number := 1 }

/-- The seven-card full-house input of the spec: three aces, two kings and
two low spades. -/
def sevenCardFullHouse : List Card :=
  [⟨.ACE, .CLUBS⟩, ⟨.ACE, .DIAMONDS⟩, ⟨.ACE, .HEARTS⟩,
   ⟨.KING, .CLUBS⟩, ⟨.KING, .DIAMONDS⟩, ⟨.TWO, .SPADES⟩, ⟨.THREE, .SPADES⟩]

def royalFive : List Card :=
  [⟨.ACE, .SPADES⟩, ⟨.KING, .SPADES⟩, ⟨.QUEEN, .SPADES⟩, ⟨.JACK, .SPADES⟩, ⟨.TEN, .SPADES⟩]

def wheelFive : List Card :=
  [⟨.FIVE, .SPADES⟩, ⟨.FOUR, .SPADES⟩, ⟨.THREE, .SPADES⟩, ⟨.TWO, .SPADES⟩, ⟨.ACE, .SPADES⟩]

def sixHighFive : List Card :=
  [⟨.SIX, .SPADES⟩, ⟨.FIVE, .SPADES⟩, ⟨.FOUR, .SPADES⟩, ⟨.THREE, .SPADES⟩, ⟨.TWO, .SPADES⟩]

/-! ### Support lemmas: descending sort -/

theorem length_insertDesc (a : Nat) (l : List Nat) :
    (insertDesc a l).length = l.length + 1 := by
  induction l with
  | nil => rfl
  | cons b bs ih =>
    simp only [insertDesc]
    split <;> simp [ih]

theorem length_sortDesc (l : List Nat) : (sortDesc l).length = l.length := by
  induction l with
  | nil => rfl
  | cons a as ih =>
    simp only [sortDesc, List.foldr_cons] at *
    rw [length_insertDesc, ih, List.length_cons]

theorem count_insertDesc (x a : Nat) (l : List Nat) :
    (insertDesc a l).count x = (if a = x then 1 else 0) + l.count x := by
  induction l with
  | nil =>
    by_cases hxa : a = x
    · subst hxa; simp [insertDesc]
    · simp [insertDesc, hxa, List.count_cons, beq_iff_eq]
  | cons b bs ih =>
    simp only [insertDesc]
    split
    · simp only [List.count_cons, ih, beq_iff_eq]
      omega
    · simp only [List.count_cons, beq_iff_eq]
      omega

theorem count_sortDesc (x : Nat) (l : List Nat) : (sortDesc l).count x = l.count x := by
  induction l with
  | nil => rfl
  | cons a as ih =>
    simp only [sortDesc, List.foldr_cons] at *
    rw [count_insertDesc, ih, List.count_cons]
    simp only [beq_iff_eq]
    omega

/-! ### Support lemmas: Counter keys -/

theorem mem_uniqueKeysAux (x : Nat) :
    ∀ (l seen : List Nat), x ∈ uniqueKeysAux seen l ↔ x ∈ l ∧ x ∉ seen := by
  intro l
  induction l with
  | nil => intro seen; simp [uniqueKeysAux]
  | cons v vs ih =>
    intro seen
    simp only [uniqueKeysAux]
    split
    · rename_i hv
      rw [ih seen]
      constructor
      · rintro ⟨h1, h2⟩
        exact ⟨List.mem_cons_of_mem _ h1, h2⟩
      · rintro ⟨h1, h2⟩
        rcases List.mem_cons.1 h1 with rfl | h1
        · exact absurd hv h2
        · exact ⟨h1, h2⟩
    · rename_i hv
      constructor
      · intro hmem
        rcases List.mem_cons.1 hmem with rfl | hmem
        · exact ⟨List.mem_cons_self x vs, hv⟩
        · obtain ⟨h1, h2⟩ := (ih (v :: seen)).1 hmem
          exact ⟨List.mem_cons_of_mem _ h1, fun hs => h2 (List.mem_cons_of_mem _ hs)⟩
      · rintro ⟨h1, h2⟩
        rcases List.mem_cons.1 h1 with rfl | h1
        · exact List.mem_cons_self x _
        · by_cases hxv : x = v
          · subst hxv; exact List.mem_cons_self x _
          · refine List.mem_cons_of_mem _ ((ih (v :: seen)).2 ⟨h1, ?_⟩)
            intro hs
            rcases List.mem_cons.1 hs with h | h
            · exact hxv h
            · exact h2 h

theorem nodup_uniqueKeysAux :
    ∀ (l seen : List Nat), (uniqueKeysAux seen l).Nodup := by
  intro l
  induction l with
  | nil => intro seen; simp [uniqueKeysAux]
  | cons v vs ih =>
    intro seen
    simp only [uniqueKeysAux]
    split
    · exact ih seen
    · refine List.Nodup.cons ?_ (ih (v :: seen))
      intro hmem
      rcases (mem_uniqueKeysAux v vs (v :: seen)).1 hmem with ⟨_, hns⟩
      exact hns (List.mem_cons_self v seen)

theorem mem_counterKeys {x : Nat} {l : List Nat} : x ∈ counterKeys l ↔ x ∈ l := by
  rw [counterKeys, mem_uniqueKeysAux]; simp

theorem nodup_counterKeys (l : List Nat) : (counterKeys l).Nodup :=
  nodup_uniqueKeysAux l []

theorem counterKeys_perm_dedup (l : List Nat) : (counterKeys l).Perm l.dedup := by
  rw [List.perm_iff_count]
  intro a
  by_cases h : a ∈ l
  · have h1 : List.count a (counterKeys l) = 1 :=
      List.count_eq_one_of_mem (nodup_counterKeys l) (mem_counterKeys.2 h)
    have h2 : List.count a l.dedup = 1 := by
      rw [List.count_dedup, if_pos h]
    rw [h1, h2]
  · have h1 : List.count a (counterKeys l) = 0 :=
      List.count_eq_zero.2 (fun hc => h (mem_counterKeys.1 hc))
    have h2 : List.count a l.dedup = 0 := by
      rw [List.count_dedup, if_neg h]
    rw [h1, h2]

theorem sum_counts (l : List Nat) :
    ((counterKeys l).map (fun v => l.count v)).sum = l.length := by
  rw [((counterKeys_perm_dedup l).map (fun v => l.count v)).sum_eq]
  exact List.sum_map_count_dedup_eq_length l

theorem count_pos_of_mem_counterKeys {v : Nat} {l : List Nat}
    (h : v ∈ counterKeys l) : 0 < l.count v :=
  List.count_pos_iff.2 (mem_counterKeys.1 h)

/-! ### Support lemmas: multiplicity bookkeeping for 5-card hands -/

theorem sum_map_all_ones {L : List Nat} {f : Nat → Nat}
    (h : ∀ x ∈ L, f x = 1) : (L.map f).sum = L.length := by
  induction L with
  | nil => rfl
  | cons a as ih =>
    simp only [List.map_cons, List.sum_cons, List.length_cons,
      h a (List.mem_cons_self a as), ih (fun x hx => h x (List.mem_cons_of_mem a hx))]
    omega

theorem eq_singleton_of_all_eq {L : List Nat} {t : Nat} (hnd : L.Nodup)
    (ht : t ∈ L) (hall : ∀ b ∈ L, b = t) : L = [t] := by
  cases L with
  | nil => cases ht
  | cons a as =>
    have ha : a = t := hall a (List.mem_cons_self a as)
    cases as with
    | nil => rw [ha]
    | cons b bs =>
      have hb : b = t := hall b (List.mem_cons_of_mem _ (List.mem_cons_self b bs))
      exfalso
      apply (List.nodup_cons.1 hnd).1
      rw [ha, ← hb]
      exact List.mem_cons_self b bs

theorem sum_split_filter (l : List Nat) (p : Nat → Bool) :
    (((counterKeys l).filter p).map (fun v => l.count v)).sum +
      (((counterKeys l).filter (fun v => !p v)).map (fun v => l.count v)).sum
      = l.length := by
  have hperm := (List.filter_append_perm p (counterKeys l)).map (fun v => l.count v)
  rw [← sum_counts l, ← hperm.sum_eq, List.map_append, List.sum_append]

theorem two_mem_le_sum {L : List Nat} {t b : Nat} (_hnd : L.Nodup)
    (ht : t ∈ L) (hb : b ∈ L) (hne : b ≠ t) (f : Nat → Nat) :
    f t + f b ≤ (L.map f).sum := by
  have hperm : L.Perm (t :: L.erase t) := List.perm_cons_erase ht
  have hb' : b ∈ L.erase t := (List.mem_erase_of_ne hne).2 hb
  have : f b ≤ ((L.erase t).map f).sum :=
    List.le_sum_of_mem (List.mem_map_of_mem f hb')
  calc f t + f b ≤ f t + ((L.erase t).map f).sum := by omega
    _ = ((t :: L.erase t).map f).sum := by simp
    _ = (L.map f).sum := ((hperm.map f).sum_eq).symm

/-- In a 5-card hand with a triple and no pair and no quad, exactly two
values occur once. -/
theorem filter_count_one_of_three {l : List Nat} (h5 : l.length = 5)
    (h3 : ∃ v ∈ counterKeys l, l.count v = 3)
    (h2 : ¬ ∃ v ∈ counterKeys l, l.count v = 2)
    (_h4 : ¬ ∃ v ∈ counterKeys l, l.count v = 4) :
    ((counterKeys l).filter (fun v => decide (l.count v = 1))).length = 2 := by
  obtain ⟨t, htU, ht3⟩ := h3
  have hsplit := sum_split_filter l (fun v => decide (l.count v = 1))
  have hones : (((counterKeys l).filter (fun v => decide (l.count v = 1))).map
      (fun v => l.count v)).sum
      = ((counterKeys l).filter (fun v => decide (l.count v = 1))).length := by
    refine sum_map_all_ones ?_
    intro x hx
    exact of_decide_eq_true (List.mem_filter.1 hx).2
  have htB : t ∈ (counterKeys l).filter (fun v => !decide (l.count v = 1)) := by
    refine List.mem_filter.2 ⟨htU, ?_⟩
    simp [ht3]
  have hBnd : ((counterKeys l).filter (fun v => !decide (l.count v = 1))).Nodup :=
    (nodup_counterKeys l).filter _
  have hbig : ∀ b ∈ (counterKeys l).filter (fun v => !decide (l.count v = 1)),
      3 ≤ l.count b := by
    intro b hb
    obtain ⟨hbU, hb1⟩ := List.mem_filter.1 hb
    have hpos := count_pos_of_mem_counterKeys hbU
    have hne1 : l.count b ≠ 1 := by
      intro hc; simp [hc] at hb1
    have hne2 : l.count b ≠ 2 := fun hc => h2 ⟨b, hbU, hc⟩
    omega
  have hall : ∀ b ∈ (counterKeys l).filter (fun v => !decide (l.count v = 1)),
      b = t := by
    intro b hb
    by_contra hne
    have hle := two_mem_le_sum hBnd htB hb hne (fun v => l.count v)
    have h3b := hbig b hb
    omega
  have hsingle : (counterKeys l).filter (fun v => !decide (l.count v = 1)) = [t] :=
    eq_singleton_of_all_eq hBnd htB hall
  rw [hsingle] at hsplit
  simp only [List.map_cons, List.map_nil, List.sum_cons, List.sum_nil, ht3] at hsplit
  omega

/-- In a 5-card hand with exactly one pair and no triple and no quad,
exactly three values occur once. -/
theorem filter_count_one_of_pair {l : List Nat} (h5 : l.length = 5)
    (hp1 : ((counterKeys l).filter (fun v => decide (l.count v = 2))).length = 1)
    (h3 : ¬ ∃ v ∈ counterKeys l, l.count v = 3)
    (h4 : ¬ ∃ v ∈ counterKeys l, l.count v = 4) :
    ((counterKeys l).filter (fun v => decide (l.count v = 1))).length = 3 := by
  obtain ⟨x, hx⟩ := List.length_eq_one.1 hp1
  have hxmem : x ∈ (counterKeys l).filter (fun v => decide (l.count v = 2)) := by
    rw [hx]; exact List.mem_cons_self x []
  obtain ⟨hxU, hx2'⟩ := List.mem_filter.1 hxmem
  have hx2 : l.count x = 2 := of_decide_eq_true hx2'
  have hsplit := sum_split_filter l (fun v => decide (l.count v = 1))
  have hones : (((counterKeys l).filter (fun v => decide (l.count v = 1))).map
      (fun v => l.count v)).sum
      = ((counterKeys l).filter (fun v => decide (l.count v = 1))).length := by
    refine sum_map_all_ones ?_
    intro y hy
    exact of_decide_eq_true (List.mem_filter.1 hy).2
  have hxB : x ∈ (counterKeys l).filter (fun v => !decide (l.count v = 1)) := by
    refine List.mem_filter.2 ⟨hxU, ?_⟩
    simp [hx2]
  have hBnd : ((counterKeys l).filter (fun v => !decide (l.count v = 1))).Nodup :=
    (nodup_counterKeys l).filter _
  have hbig : ∀ b ∈ (counterKeys l).filter (fun v => !decide (l.count v = 1)),
      b ≠ x → 5 ≤ l.count b := by
    intro b hb hne
    obtain ⟨hbU, hb1⟩ := List.mem_filter.1 hb
    have hpos := count_pos_of_mem_counterKeys hbU
    have hne1 : l.count b ≠ 1 := by
      intro hc; simp [hc] at hb1
    have hne2 : l.count b ≠ 2 := by
      intro hc
      have hbmem : b ∈ (counterKeys l).filter (fun v => decide (l.count v = 2)) :=
        List.mem_filter.2 ⟨hbU, by simp [hc]⟩
      rw [hx] at hbmem
      exact hne (List.mem_singleton.1 hbmem)
    have hne3 : l.count b ≠ 3 := fun hc => h3 ⟨b, hbU, hc⟩
    have hne4 : l.count b ≠ 4 := fun hc => h4 ⟨b, hbU, hc⟩
    omega
  have hall : ∀ b ∈ (counterKeys l).filter (fun v => !decide (l.count v = 1)),
      b = x := by
    intro b hb
    by_contra hne
    have hle := two_mem_le_sum hBnd hxB hb hne (fun v => l.count v)
    have h5b := hbig b hb hne
    omega
  have hsingle : (counterKeys l).filter (fun v => !decide (l.count v = 1)) = [x] :=
    eq_singleton_of_all_eq hBnd hxB hall
  rw [hsingle] at hsplit
  simp only [List.map_cons, List.map_nil, List.sum_cons, List.sum_nil, hx2] at hsplit
  omega

/-! ### Well-formedness of evaluated hands -/

/-- The kicker-list length that evaluate_five_cards always produces for
each hand category. -/
def kickerLen : HandRank → Nat
  | .HIGH_CARD => 5 | .ONE_PAIR => 3 | .TWO_PAIR => 1 | .THREE_OF_A_KIND => 2
  | .STRAIGHT => 0 | .FLUSH => 5 | .FULL_HOUSE => 0 | .FOUR_OF_A_KIND => 1
  | .STRAIGHT_FLUSH => 0 | .ROYAL_FLUSH => 0

/-- A HandStrength is well formed when its kicker list has the length that
its category always carries. -/
def WF (h : HandStrength) : Prop := h.kickers.length = kickerLen h.rank

theorem counterItems_any (l : List Nat) (n : Nat) :
    ((counterItems l).any (fun it => decide (it.2 = n)) = true)
      ↔ ∃ v ∈ counterKeys l, l.count v = n := by
  simp [counterItems, List.any_eq_true]

theorem counterItems_filter_map (l : List Nat) (n : Nat) :
    ((counterItems l).filter (fun it => decide (it.2 = n))).map Prod.fst
      = (counterKeys l).filter (fun v => decide (l.count v = n)) := by
  rw [counterItems, List.filter_map, List.map_map]
  simp [Function.comp_def]

/-- Every 5-card evaluation yields a well-formed HandStrength: the kicker
list length is determined by the category. -/
theorem WF_evaluate_five_cards (cards : List Card) (h : cards.length = 5) :
    WF (evaluate_five_cards cards) := by
  have hlen : (sortDesc (cards.map cardValue)).length = 5 := by
    rw [length_sortDesc, List.length_map, h]
  simp only [evaluate_five_cards]
  split_ifs with h1 h2 h3 h4 h5 h6 h7 h8 h9
  · rfl
  · rfl
  · rfl
  · rfl
  · simp only [WF, kickerLen]
    exact hlen
  · rfl
  · simp only [WF, kickerLen]
    rw [length_sortDesc, counterItems_filter_map]
    refine filter_count_one_of_three hlen ((counterItems_any _ 3).1 h7) ?_ ?_
    · intro hex
      have hb2 := (counterItems_any (sortDesc (cards.map cardValue)) 2).2 hex
      exact h4 (by rw [h7, hb2]; rfl)
    · intro hex
      exact h3 ((counterItems_any _ 4).2 hex)
  · rfl
  · simp only [WF, kickerLen]
    rw [length_sortDesc, counterItems_filter_map]
    rw [counterItems_filter_map] at h9
    refine filter_count_one_of_pair hlen h9 ?_ ?_
    · intro hex
      exact h7 ((counterItems_any _ 3).2 hex)
    · intro hex
      exact h3 ((counterItems_any _ 4).2 hex)
  · simp only [WF, kickerLen]
    exact hlen

/-! ### The comparison methods as a strict order -/

theorem HandRank.val_inj : ∀ {a b : HandRank}, a.val = b.val → a = b := by
  intro a b
  cases a <;> cases b <;> decide

theorem kickersLt_self : ∀ xs : List Nat, kickersLt xs xs = false := by
  intro xs
  induction xs with
  | nil => rfl
  | cons x xs ih => simp [kickersLt, ih]

theorem kickersLt_asymm : ∀ {xs ys : List Nat},
    kickersLt xs ys = true → kickersLt ys xs = true → False := by
  intro xs
  induction xs with
  | nil => intro ys h1 _; cases ys <;> simp [kickersLt] at h1
  | cons x xs ih =>
    intro ys h1 h2
    cases ys with
    | nil => simp [kickersLt] at h1
    | cons y ys =>
      by_cases hxy : x = y
      · subst hxy
        simp only [kickersLt, if_neg (fun hc : x ≠ x => hc rfl)] at h1 h2
        exact ih h1 h2
      · have hyx : y ≠ x := fun hc => hxy hc.symm
        simp only [kickersLt, if_pos hxy, if_pos hyx, decide_eq_true_eq] at h1 h2
        omega

theorem kickersLt_trans : ∀ {xs ys zs : List Nat},
    kickersLt xs ys = true → kickersLt ys zs = true → kickersLt xs zs = true := by
  intro xs
  induction xs with
  | nil => intro ys zs h1 _; cases ys <;> simp [kickersLt] at h1
  | cons x xs ih =>
    intro ys zs h1 h2
    cases ys with
    | nil => simp [kickersLt] at h1
    | cons y ys =>
      cases zs with
      | nil => simp [kickersLt] at h2
      | cons z zs =>
        by_cases hxy : x = y <;> by_cases hyz : y = z
        · subst hxy; subst hyz
          simp only [kickersLt, if_neg (fun hc : x ≠ x => hc rfl)] at h1 h2 ⊢
          exact ih h1 h2
        · subst hxy
          simp only [kickersLt, if_pos hyz, decide_eq_true_eq] at h2
          have hxz : x ≠ z := by omega
          simp only [kickersLt, if_pos hxz, decide_eq_true_eq]
          omega
        · subst hyz
          simp only [kickersLt, if_pos hxy, decide_eq_true_eq] at h1
          have hxz : x ≠ y := hxy
          simp only [kickersLt, if_pos hxz, decide_eq_true_eq]
          omega
        · simp only [kickersLt, if_pos hxy, if_pos hyz, decide_eq_true_eq] at h1 h2
          have hxz : x ≠ z := by omega
          simp only [kickersLt, if_pos hxz, decide_eq_true_eq]
          omega

theorem kickersLt_connex : ∀ {xs ys : List Nat}, xs.length = ys.length → xs ≠ ys →
    kickersLt xs ys = true ∨ kickersLt ys xs = true := by
  intro xs
  induction xs with
  | nil =>
    intro ys hl hne
    cases ys with
    | nil => exact absurd rfl hne
    | cons y ys => simp at hl
  | cons x xs ih =>
    intro ys hl hne
    cases ys with
    | nil => simp at hl
    | cons y ys =>
      by_cases hxy : x = y
      · subst hxy
        have hne' : xs ≠ ys := fun hc => hne (by rw [hc])
        have hl' : xs.length = ys.length := by simpa using hl
        rcases ih hl' hne' with h | h
        · left
          simp only [kickersLt, if_neg (fun hc : x ≠ x => hc rfl)]
          exact h
        · right
          simp only [kickersLt, if_neg (fun hc : x ≠ x => hc rfl)]
          exact h
      · have hyx : y ≠ x := fun hc => hxy hc.symm
        rcases Nat.lt_or_ge x y with h | h
        · left
          simp only [kickersLt, if_pos hxy, decide_eq_true_eq]
          exact h
        · right
          simp only [kickersLt, if_pos hyx, decide_eq_true_eq]
          omega

theorem hsEq_iff {a b : HandStrength} : hsEq a b = true ↔ a = b := by
  cases a; cases b
  simp [hsEq, HandStrength.mk.injEq, and_assoc]

/-- Unfolding of the __lt__ chain into a lexicographic specification. -/
theorem hsLt_iff {a b : HandStrength} : hsLt a b = true ↔
    (a.rank.val < b.rank.val ∨
      (a.rank = b.rank ∧ (a.primary_value < b.primary_value ∨
        (a.primary_value = b.primary_value ∧ (a.secondary_value < b.secondary_value ∨
          (a.secondary_value = b.secondary_value ∧
            kickersLt a.kickers b.kickers = true)))))) := by
  unfold hsLt
  split_ifs with h1 h2 h3
  · simp only [decide_eq_true_eq]
    constructor
    · exact fun h => Or.inl h
    · rintro (h | ⟨heq, -⟩)
      · exact h
      · exact absurd heq h1
  · have hr : a.rank = b.rank := not_not.mp h1
    have hv := congrArg HandRank.val hr
    simp only [decide_eq_true_eq]
    constructor
    · intro h; exact Or.inr ⟨hr, Or.inl h⟩
    · rintro (h | ⟨-, h | ⟨heq, -⟩⟩)
      · omega
      · exact h
      · exact absurd heq h2
  · have hr : a.rank = b.rank := not_not.mp h1
    have hv := congrArg HandRank.val hr
    have hp : a.primary_value = b.primary_value := not_not.mp h2
    simp only [decide_eq_true_eq]
    constructor
    · intro h; exact Or.inr ⟨hr, Or.inr ⟨hp, Or.inl h⟩⟩
    · rintro (h | ⟨-, h | ⟨-, h | ⟨heq, -⟩⟩⟩)
      · omega
      · omega
      · exact h
      · exact absurd heq h3
  · have hr : a.rank = b.rank := not_not.mp h1
    have hv := congrArg HandRank.val hr
    have hp : a.primary_value = b.primary_value := not_not.mp h2
    have hs : a.secondary_value = b.secondary_value := not_not.mp h3
    constructor
    · intro h; exact Or.inr ⟨hr, Or.inr ⟨hp, Or.inr ⟨hs, h⟩⟩⟩
    · rintro (h | ⟨-, h | ⟨-, h | ⟨-, h⟩⟩⟩)
      · omega
      · omega
      · omega
      · exact h

theorem hsLt_asymm {a b : HandStrength}
    (h1 : hsLt a b = true) (h2 : hsLt b a = true) : False := by
  rw [hsLt_iff] at h1 h2
  rcases h1 with h1 | ⟨hr1, h1⟩ <;> rcases h2 with h2 | ⟨hr2, h2⟩
  · omega
  · have := congrArg HandRank.val hr2; omega
  · have := congrArg HandRank.val hr1; omega
  · rcases h1 with h1 | ⟨hp1, h1⟩ <;> rcases h2 with h2 | ⟨hp2, h2⟩
    · omega
    · omega
    · omega
    · rcases h1 with h1 | ⟨hs1, h1⟩ <;> rcases h2 with h2 | ⟨hs2, h2⟩
      · omega
      · omega
      · omega
      · exact kickersLt_asymm h1 h2

theorem hsLt_trans {a b c : HandStrength}
    (h1 : hsLt a b = true) (h2 : hsLt b c = true) : hsLt a c = true := by
  rw [hsLt_iff] at h1 h2 ⊢
  rcases h1 with h1 | ⟨hr1, h1⟩ <;> rcases h2 with h2 | ⟨hr2, h2⟩
  · exact Or.inl (by omega)
  · have := congrArg HandRank.val hr2
    exact Or.inl (by omega)
  · have := congrArg HandRank.val hr1
    exact Or.inl (by omega)
  · refine Or.inr ⟨hr1.trans hr2, ?_⟩
    rcases h1 with h1 | ⟨hp1, h1⟩ <;> rcases h2 with h2 | ⟨hp2, h2⟩
    · exact Or.inl (by omega)
    · exact Or.inl (by omega)
    · exact Or.inl (by omega)
    · refine Or.inr ⟨hp1.trans hp2, ?_⟩
      rcases h1 with h1 | ⟨hs1, h1⟩ <;> rcases h2 with h2 | ⟨hs2, h2⟩
      · exact Or.inl (by omega)
      · exact Or.inl (by omega)
      · exact Or.inl (by omega)
      · exact Or.inr ⟨hs1.trans hs2, kickersLt_trans h1 h2⟩

theorem hsLt_irrefl (a : HandStrength) : hsLt a a = false := by
  unfold hsLt
  simp [kickersLt_self]

/-- Totality of the comparison on well-formed hands: distinct well-formed
strengths are ordered one way or the other. -/
theorem hsLt_connex {a b : HandStrength} (ha : WF a) (hb : WF b) (hne : a ≠ b) :
    hsLt a b = true ∨ hsLt b a = true := by
  by_cases hr : a.rank = b.rank
  · by_cases hp : a.primary_value = b.primary_value
    · by_cases hs : a.secondary_value = b.secondary_value
      · have hk : a.kickers ≠ b.kickers := by
          intro hk
          apply hne
          cases a; cases b
          simp_all
        have hlen : a.kickers.length = b.kickers.length := by
          rw [WF] at ha hb
          rw [ha, hb, hr]
        rcases kickersLt_connex hlen hk with h | h
        · left
          rw [hsLt_iff]
          exact Or.inr ⟨hr, Or.inr ⟨hp, Or.inr ⟨hs, h⟩⟩⟩
        · right
          rw [hsLt_iff]
          exact Or.inr ⟨hr.symm, Or.inr ⟨hp.symm, Or.inr ⟨hs.symm, h⟩⟩⟩
      · rcases Nat.lt_or_ge a.secondary_value b.secondary_value with h | h
        · left
          rw [hsLt_iff]
          exact Or.inr ⟨hr, Or.inr ⟨hp, Or.inl h⟩⟩
        · right
          rw [hsLt_iff]
          refine Or.inr ⟨hr.symm, Or.inr ⟨hp.symm, Or.inl (by omega)⟩⟩
    · rcases Nat.lt_or_ge a.primary_value b.primary_value with h | h
      · left
        rw [hsLt_iff]
        exact Or.inr ⟨hr, Or.inl h⟩
      · right
        rw [hsLt_iff]
        refine Or.inr ⟨hr.symm, Or.inl (by omega)⟩
  · have hv : a.rank.val ≠ b.rank.val := fun hc => hr (HandRank.val_inj hc)
    rcases Nat.lt_or_ge a.rank.val b.rank.val with h | h
    · left
      rw [hsLt_iff]
      exact Or.inl h
    · right
      rw [hsLt_iff]
      exact Or.inl (by omega)

theorem hsEq_of_eq {a : HandStrength} : hsEq a a = true := hsEq_iff.2 rfl

theorem hsLt_of_eq_false {a b : HandStrength} (h : a = b) : hsLt a b = false := by
  subst h; exact hsLt_irrefl a

/-- On well-formed hands, __gt__ coincides with the flipped __lt__. -/
theorem hsGt_eq_hsLt_swap {a b : HandStrength} (ha : WF a) (hb : WF b) :
    hsGt a b = hsLt b a := by
  by_cases hlt : hsLt b a = true
  · have hne : a ≠ b := by
      rintro rfl
      rw [hsLt_irrefl] at hlt
      cases hlt
    have h1 : hsLt a b = false := by
      cases h : hsLt a b
      · rfl
      · exact absurd (hsLt_asymm h hlt) not_false
    have h2 : hsEq a b = false := by
      cases h : hsEq a b
      · rfl
      · exact absurd (hsEq_iff.1 h) hne
    rw [hsGt, h1, h2, hlt]
    rfl
  · have hba : hsLt b a = false := by
      cases h : hsLt b a
      · rfl
      · exact absurd h hlt
    by_cases heq : a = b
    · subst heq
      rw [hsGt, hsLt_irrefl, hsEq_of_eq]
      rfl
    · rcases hsLt_connex ha hb heq with h | h
      · have h2 : hsEq a b = false := by
          cases hh : hsEq a b
          · rfl
          · exact absurd (hsEq_iff.1 hh) heq
        rw [hsGt, h, h2, hba]
        rfl
      · rw [h] at hba
        cases hba

/-! ### evaluate_hand computes the maximum over all 5-card subsets -/

theorem mem_combinations_length :
    ∀ (l : List Card) (n : Nat) (s : List Card), s ∈ combinations n l → s.length = n := by
  intro l
  induction l with
  | nil =>
    intro n s hs
    cases n with
    | zero =>
      simp only [combinations, List.mem_singleton] at hs
      rw [hs]
      rfl
    | succ n => simp [combinations] at hs
  | cons x xs ih =>
    intro n s hs
    cases n with
    | zero =>
      simp only [combinations, List.mem_singleton] at hs
      rw [hs]
      rfl
    | succ n =>
      simp only [combinations, List.mem_append, List.mem_map] at hs
      rcases hs with ⟨t, ht, rfl⟩ | hs
      · simp [ih n t ht]
      · exact ih (n + 1) s hs

theorem combinations_ne_nil :
    ∀ (l : List Card) (n : Nat), n ≤ l.length → combinations n l ≠ [] := by
  intro l
  induction l with
  | nil =>
    intro n hn
    cases n with
    | zero => simp [combinations]
    | succ n => simp at hn
  | cons x xs ih =>
    intro n hn
    cases n with
    | zero => simp [combinations]
    | succ n =>
      have hn' : n ≤ xs.length := by simpa using hn
      simp only [combinations]
      intro hc
      rcases List.append_eq_nil.1 hc with ⟨h1, -⟩
      exact ih n hn' (List.map_eq_nil_iff.1 h1)

/-- The strictly-greater fold of evaluate_hand returns a maximum of the
accumulator and the evaluated candidates. -/
theorem foldBest_spec :
    ∀ (l : List (List Card)) (b : HandStrength),
      (∀ e ∈ l, WF (evaluate_five_cards e)) → WF b →
      ∃ m, (l.foldl
          (fun best five_cards =>
            let hand_strength := evaluate_five_cards five_cards
            match best with
            | none => some hand_strength
            | some bb => if hsGt hand_strength bb then some hand_strength else some bb)
          (some b)) = some m ∧ WF m ∧
        (m = b ∨ m ∈ l.map evaluate_five_cards) ∧
        (hsLt b m = true ∨ b = m) ∧
        (∀ e ∈ l.map evaluate_five_cards, hsLt e m = true ∨ e = m) := by
  intro l
  induction l with
  | nil =>
    intro b _ hwb
    exact ⟨b, rfl, hwb, Or.inl rfl, Or.inr rfl, by simp⟩
  | cons c l ih =>
    intro b hwf hwb
    have hwc : WF (evaluate_five_cards c) := hwf c (List.mem_cons_self c l)
    have hwf' : ∀ e ∈ l, WF (evaluate_five_cards e) :=
      fun e he => hwf e (List.mem_cons_of_mem c he)
    rw [List.foldl_cons]
    by_cases hgt : hsGt (evaluate_five_cards c) b = true
    · have hblt : hsLt b (evaluate_five_cards c) = true := by
        rw [← hsGt_eq_hsLt_swap hwc hwb]
        exact hgt
      obtain ⟨m, hfold, hwm, hmem, hble, hall⟩ := ih (evaluate_five_cards c) hwf' hwc
      refine ⟨m, ?_, hwm, ?_, ?_, ?_⟩
      · rw [← hfold]
        congr 1
        simp [hgt]
      · rcases hmem with rfl | hmem
        · exact Or.inr (List.mem_cons_self _ _)
        · exact Or.inr (List.mem_cons_of_mem _ hmem)
      · rcases hble with hlt | heq
        · exact Or.inl (hsLt_trans hblt hlt)
        · rw [← heq]
          exact Or.inl hblt
      · intro e he
        rcases List.mem_cons.1 he with rfl | he
        · exact hble
        · exact hall e he
    · have hx : (hsLt (evaluate_five_cards c) b || hsEq (evaluate_five_cards c) b) = true := by
        cases hb : (hsLt (evaluate_five_cards c) b || hsEq (evaluate_five_cards c) b)
        · exact absurd (by rw [hsGt, hb]; rfl) hgt
        · rfl
      have hor : hsLt (evaluate_five_cards c) b = true ∨ evaluate_five_cards c = b := by
        rw [Bool.or_eq_true] at hx
        rcases hx with h | h
        · exact Or.inl h
        · exact Or.inr (hsEq_iff.1 h)
      obtain ⟨m, hfold, hwm, hmem, hble, hall⟩ := ih b hwf' hwb
      refine ⟨m, ?_, hwm, ?_, hble, ?_⟩
      · rw [← hfold]
        congr 1
        simp [hgt]
      · rcases hmem with rfl | hmem
        · exact Or.inl rfl
        · exact Or.inr (List.mem_cons_of_mem _ hmem)
      · intro e he
        rcases List.mem_cons.1 he with rfl | he
        · rcases hor with hlt | heq
          · rcases hble with h | h
            · exact Or.inl (hsLt_trans hlt h)
            · rw [← h]
              exact Or.inl hlt
          · rw [heq]
            exact hble
        · exact hall e he

/-! ### Claim theorems -/

/-- C1: for more than 5 (up to 7) unique cards, evaluate_hand returns the
maximum, under the HandStrength order, of evaluate_five_cards over every
5-card subset: the result is one of the subset evaluations and every subset
evaluation is below-or-equal to it; in particular the seven cards
A club, A diamond, A heart, K club, K diamond, 2 spade, 3 spade evaluate
to a Full House with primary 14 (aces) and secondary 13 (kings). -/
theorem evaluate_hand_is_max_of_subsets (cards : List Card)
    (hlow : 5 < cards.length) (hhigh : cards.length ≤ 7) (_hnd : cards.Nodup) :
    (∃ m, evaluate_hand cards = some m ∧
      m ∈ (combinations 5 cards).map evaluate_five_cards ∧
      ∀ e ∈ (combinations 5 cards).map evaluate_five_cards,
        (hsLt e m || hsEq e m) = true) ∧
    evaluate_hand sevenCardFullHouse = some ⟨.FULL_HOUSE, 14, 13, []⟩ := by
  constructor
  · have hwf : ∀ s ∈ combinations 5 cards, WF (evaluate_five_cards s) := fun s hs =>
      WF_evaluate_five_cards s (mem_combinations_length cards 5 s hs)
    have hne : combinations 5 cards ≠ [] := combinations_ne_nil cards 5 (by omega)
    unfold evaluate_hand
    rw [if_neg (by omega)]
    cases hc : combinations 5 cards with
    | nil => exact absurd hc hne
    | cons c l =>
      have hwfc : WF (evaluate_five_cards c) := by
        refine hwf c ?_
        rw [hc]
        exact List.mem_cons_self c l
      have hwfl : ∀ e ∈ l, WF (evaluate_five_cards e) := by
        intro e he
        refine hwf e ?_
        rw [hc]
        exact List.mem_cons_of_mem c he
      obtain ⟨m, hfold, hwm, hmem, hble, hall⟩ :=
        foldBest_spec l (evaluate_five_cards c) hwfl hwfc
      refine ⟨m, ?_, ?_, ?_⟩
      · rw [List.foldl_cons, ← hfold]
      · rcases hmem with rfl | hmem
        · exact List.mem_map_of_mem _ (List.mem_cons_self c l)
        · rcases List.mem_map.1 hmem with ⟨e, he, rfl⟩
          exact List.mem_map_of_mem _ (List.mem_cons_of_mem c he)
      · intro e he
        rw [List.map_cons] at he
        rw [Bool.or_eq_true]
        rcases List.mem_cons.1 he with rfl | he
        · rcases hble with h | h
          · exact Or.inl h
          · exact Or.inr (hsEq_iff.2 h)
        · rcases hall e he with h | h
          · exact Or.inl h
          · exact Or.inr (hsEq_iff.2 h)
  · decide

/-- Witness for C1 at the concrete seven-card full-house input. -/
theorem evaluate_hand_is_max_of_subsets_witness :
    (5 < sevenCardFullHouse.length ∧ sevenCardFullHouse.length ≤ 7 ∧
      sevenCardFullHouse.Nodup) ∧
    (∃ m, evaluate_hand sevenCardFullHouse = some m ∧
      m ∈ (combinations 5 sevenCardFullHouse).map evaluate_five_cards ∧
      ∀ e ∈ (combinations 5 sevenCardFullHouse).map evaluate_five_cards,
        (hsLt e m || hsEq e m) = true) :=
  ⟨⟨by decide, by decide, by decide⟩,
    (evaluate_hand_is_max_of_subsets sevenCardFullHouse
      (by decide) (by decide) (by decide)).1⟩

/-- C2: on HandStrengths produced by evaluating 5-card hands, the
comparison of __lt__, __eq__ and __gt__ is a strict total order:
asymmetric, transitive, exactly one of lt, eq, gt holds, __gt__ agrees
with the flipped __lt__, and a category (rank) difference dominates the
primary, secondary and kicker fields. -/
theorem hand_comparison_strict_total_order
    (cs1 cs2 cs3 : List Card) (h1 : cs1.length = 5) (h2 : cs2.length = 5)
    (_h3 : cs3.length = 5) :
    (¬(hsLt (evaluate_five_cards cs1) (evaluate_five_cards cs2) = true ∧
       hsLt (evaluate_five_cards cs2) (evaluate_five_cards cs1) = true)) ∧
    (hsLt (evaluate_five_cards cs1) (evaluate_five_cards cs2) = true →
      hsLt (evaluate_five_cards cs2) (evaluate_five_cards cs3) = true →
      hsLt (evaluate_five_cards cs1) (evaluate_five_cards cs3) = true) ∧
    ((hsLt (evaluate_five_cards cs1) (evaluate_five_cards cs2) = true ∧
        hsEq (evaluate_five_cards cs1) (evaluate_five_cards cs2) = false ∧
        hsGt (evaluate_five_cards cs1) (evaluate_five_cards cs2) = false) ∨
     (hsLt (evaluate_five_cards cs1) (evaluate_five_cards cs2) = false ∧
        hsEq (evaluate_five_cards cs1) (evaluate_five_cards cs2) = true ∧
        hsGt (evaluate_five_cards cs1) (evaluate_five_cards cs2) = false) ∨
     (hsLt (evaluate_five_cards cs1) (evaluate_five_cards cs2) = false ∧
        hsEq (evaluate_five_cards cs1) (evaluate_five_cards cs2) = false ∧
        hsGt (evaluate_five_cards cs1) (evaluate_five_cards cs2) = true)) ∧
    (hsGt (evaluate_five_cards cs1) (evaluate_five_cards cs2)
      = hsLt (evaluate_five_cards cs2) (evaluate_five_cards cs1)) ∧
    ((evaluate_five_cards cs1).rank.val < (evaluate_five_cards cs2).rank.val →
      hsLt (evaluate_five_cards cs1) (evaluate_five_cards cs2) = true) := by
  have wa : WF (evaluate_five_cards cs1) := WF_evaluate_five_cards cs1 h1
  have wb : WF (evaluate_five_cards cs2) := WF_evaluate_five_cards cs2 h2
  refine ⟨fun ⟨x, y⟩ => hsLt_asymm x y, fun x y => hsLt_trans x y, ?_, ?_, ?_⟩
  · by_cases heq : evaluate_five_cards cs1 = evaluate_five_cards cs2
    · refine Or.inr (Or.inl ⟨hsLt_of_eq_false heq, hsEq_iff.2 heq, ?_⟩)
      rw [hsGt, hsLt_of_eq_false heq, hsEq_iff.2 heq]
      rfl
    · rcases hsLt_connex wa wb heq with h | h
      · have hef : hsEq (evaluate_five_cards cs1) (evaluate_five_cards cs2) = false := by
          cases hh : hsEq (evaluate_five_cards cs1) (evaluate_five_cards cs2)
          · rfl
          · exact absurd (hsEq_iff.1 hh) heq
        refine Or.inl ⟨h, hef, ?_⟩
        rw [hsGt, h]
        rfl
      · have hlf : hsLt (evaluate_five_cards cs1) (evaluate_five_cards cs2) = false := by
          cases hh : hsLt (evaluate_five_cards cs1) (evaluate_five_cards cs2)
          · rfl
          · exact absurd (hsLt_asymm hh h) not_false
        have hef : hsEq (evaluate_five_cards cs1) (evaluate_five_cards cs2) = false := by
          cases hh : hsEq (evaluate_five_cards cs1) (evaluate_five_cards cs2)
          · rfl
          · exact absurd (hsEq_iff.1 hh) heq
        refine Or.inr (Or.inr ⟨hlf, hef, ?_⟩)
        rw [hsGt_eq_hsLt_swap wa wb]
        exact h
  · exact hsGt_eq_hsLt_swap wa wb
  · intro h
    rw [hsLt_iff]
    exact Or.inl h

/-- Witness for C2 at three concrete 5-card hands. -/
theorem hand_comparison_strict_total_order_witness :
    (royalFive.length = 5 ∧ wheelFive.length = 5 ∧ sixHighFive.length = 5) ∧
    ¬(hsLt (evaluate_five_cards royalFive) (evaluate_five_cards wheelFive) = true ∧
      hsLt (evaluate_five_cards wheelFive) (evaluate_five_cards royalFive) = true) :=
  ⟨⟨by decide, by decide, by decide⟩,
    (hand_comparison_strict_total_order royalFive wheelFive sixHighFive
      (by decide) (by decide) (by decide)).1⟩

/-- C3: the spade royal board evaluates to a Royal Flush; the wheel
evaluates to a Straight Flush with primary 5 (not 14) and compares
strictly below the 6-high straight flush, whose primary is 6. -/
theorem royal_wheel_sixhigh_evaluation :
    evaluate_hand royalFive = some ⟨.ROYAL_FLUSH, 14, 0, []⟩ ∧
    evaluate_hand wheelFive = some ⟨.STRAIGHT_FLUSH, 5, 0, []⟩ ∧
    evaluate_hand sixHighFive = some ⟨.STRAIGHT_FLUSH, 6, 0, []⟩ ∧
    hsLt (evaluate_five_cards wheelFive) (evaluate_five_cards sixHighFive) = true := by
  refine ⟨by decide, by decide, by decide, by decide⟩

/-! ### Small list-update lemmas for the engine -/

theorem get?_set_ne {α : Type} (l : List α) (i j : Nat) (x : α) (h : j ≠ i) :
    (l.set i x).get? j = l.get? j := by
  induction l generalizing i j with
  | nil => simp
  | cons a as ih =>
    cases i with
    | zero =>
      cases j with
      | zero => exact absurd rfl h
      | succ j => simp [List.set]
    | succ i =>
      cases j with
      | zero => simp [List.set]
      | succ j => simpa [List.set] using ih i j (fun hc => h (by rw [hc]))

theorem map_set_eq {α β : Type} {l : List α} {i : Nat} {x x' : α} (f : α → β)
    (hx : l.get? i = some x) (hf : f x' = f x) : (l.set i x').map f = l.map f := by
  induction l generalizing i with
  | nil => simp at hx
  | cons a as ih =>
    cases i with
    | zero =>
      simp only [List.get?] at hx
      cases hx
      simp [List.set, hf]
    | succ i =>
      simp only [List.get?] at hx
      simp [List.set, ih hx]

theorem sum_map_set {l : List Player} {i : Nat} {p p' : Player} (f : Player → Int)
    (hp : l.get? i = some p) :
    ((l.set i p').map f).sum = (l.map f).sum + f p' - f p := by
  induction l generalizing i with
  | nil => simp at hp
  | cons a as ih =>
    cases i with
    | zero =>
      simp only [List.get?] at hp
      cases hp
      simp [List.set]
      omega
    | succ i =>
      simp only [List.get?] at hp
      simp only [List.set, List.map_cons, List.sum_cons, ih hp]
      omega

/-! ### Claim C6: folded or all-in players are rejected unchanged -/

/-- C6: execute_action on a folded or all-in player returns invalid (false)
and hands back the state unchanged, so the pot, every stack, every bet,
all flags and all histories are untouched. -/
theorem execute_action_rejects_folded_or_all_in
    (s : GameState) (i : Nat) (p : Player) (a : Action) (amount : Int)
    (hp : s.players.get? i = some p) (hfa : p.folded = true ∨ p.all_in = true) :
    s.execute_action i a amount = (false, s) := by
  unfold GameState.execute_action
  rw [hp]
  rcases hfa with h | h <;> simp [h]

/-- Witness for C6: checking as the folded seat of the mixed-flags state is
rejected without mutation. -/
theorem execute_action_rejects_folded_or_all_in_witness :
    (mixedFlagsState.players.get? 0
        = some ({ mkPlayer "P1" 100 [] with folded := true }) ∧
      ({ mkPlayer "P1" 100 [] with folded := true } : Player).folded = true) ∧
    mixedFlagsState.execute_action 0 Action.CHECK 0 = (false, mixedFlagsState) :=
  ⟨⟨by decide, by decide⟩,
    execute_action_rejects_folded_or_all_in mixedFlagsState 0
      ({ mkPlayer "P1" 100 [] with folded := true }) Action.CHECK 0
      (by decide) (Or.inl (by decide))⟩

/-! ### Claim C9: the unhandled ALL_IN action -/

/-- C9: for an active player, execute_action with the ALL_IN enum member
(which none of the four handled branches matches) returns true, leaves the
pot, all stacks, bets and flags unchanged, appends the (ALL_IN, amount,
round) record to the acting player's history, and touches no other
player. -/
theorem execute_action_all_in_only_records
    (s : GameState) (i : Nat) (p : Player) (amount : Int)
    (hp : s.players.get? i = some p) (hnf : p.folded = false) (hna : p.all_in = false) :
    s.execute_action i .ALL_IN amount = (true, s.recordAction i .ALL_IN amount) ∧
    (s.recordAction i .ALL_IN amount).pot = s.pot ∧
    (s.recordAction i .ALL_IN amount).current_bet = s.current_bet ∧
    (s.recordAction i .ALL_IN amount).players.map Player.stack
      = s.players.map Player.stack ∧
    (s.recordAction i .ALL_IN amount).players.map Player.current_bet
      = s.players.map Player.current_bet ∧
    (s.recordAction i .ALL_IN amount).players.map Player.folded
      = s.players.map Player.folded ∧
    (s.recordAction i .ALL_IN amount).players.map Player.all_in
      = s.players.map Player.all_in ∧
    (s.recordAction i .ALL_IN amount).players.get? i
      = some ({ p with action_history :=
          p.action_history.add_action .ALL_IN amount s.current_round }) ∧
    (∀ j, j ≠ i → (s.recordAction i .ALL_IN amount).players.get? j
      = s.players.get? j) := by
  have hrec : s.recordAction i .ALL_IN amount
      = { s with players := s.players.set i ({ p with action_history := p.action_history.add_action Action.ALL_IN amount s.current_round }) } := by
    unfold GameState.recordAction
    rw [hp]
  refine ⟨?_, ?_, ?_, ?_, ?_, ?_, ?_, ?_, ?_⟩
  · unfold GameState.execute_action
    rw [hp]
    simp [hnf, hna]
  · rw [hrec]
  · rw [hrec]
  · rw [hrec]
    exact map_set_eq Player.stack hp rfl
  · rw [hrec]
    exact map_set_eq Player.current_bet hp rfl
  · rw [hrec]
    exact map_set_eq Player.folded hp rfl
  · rw [hrec]
    exact map_set_eq Player.all_in hp rfl
  · rw [hrec]
    have hi : i < s.players.length := (List.get?_eq_some.1 hp).1
    simp [List.get?_eq_getElem?, List.getElem?_set_self (by simpa using hi)]
  · intro j hj
    rw [hrec]
    exact get?_set_ne s.players i j _ hj

/-- Witness for C9 at the active seat of the mixed-flags state. -/
theorem execute_action_all_in_only_records_witness :
    (mixedFlagsState.players.get? 2 = some (mkPlayer "P3" 100 []) ∧
      (mkPlayer "P3" 100 []).folded = false ∧ (mkPlayer "P3" 100 []).all_in = false) ∧
    mixedFlagsState.execute_action 2 .ALL_IN 40
      = (true, mixedFlagsState.recordAction 2 .ALL_IN 40) :=
  ⟨⟨by decide, by decide, by decide⟩,
    (execute_action_all_in_only_records mixedFlagsState 2 (mkPlayer "P3" 100 []) 40
      (by decide) (by decide) (by decide)).1⟩

/-! ### Claim C4: the over-stack raise -/

/-- C4 (evaluating the code at the failing input): a raise of 60 by the
only player, who has a 50-chip stack and owes nothing, is accepted, moves
exactly the remaining 50 chips into the pot and sets the table bet to the
player's committed 50 - but the player's all_in flag stays false, because
execute_action pre-clamps the amount to player.stack and Player.bet only
sets all_in when the amount strictly exceeds the stack. -/
theorem raise_over_stack_leaves_all_in_false :
    (raiseShortState.execute_action 0 .RAISE 60).1 = true ∧
    ((raiseShortState.execute_action 0 .RAISE 60).2.players.map
        (fun p => (p.stack, p.current_bet, p.all_in)))
      = [((0 : Int), (50 : Int), false)] ∧
    (raiseShortState.execute_action 0 .RAISE 60).2.pot = 50 ∧
    (raiseShortState.execute_action 0 .RAISE 60).2.current_bet = 50 := by
  refine ⟨by decide, by decide, by decide, by decide⟩

/-! ### Claim C7: pot accounting across a hand -/

/-- Total chips held in player stacks. -/
def stacksSum (ps : List Player) : Int := (ps.map Player.stack).sum

theorem bet_conservation (p : Player) (x : Int) :
    (p.bet x).1 = p.stack - (p.bet x).2.stack := by
  unfold Player.bet
  split <;> simp

theorem recordAction_fields (s : GameState) (i : Nat) (a : Action) (amt : Int) :
    (s.recordAction i a amt).pot = s.pot ∧
    (s.recordAction i a amt).players.map Player.stack = s.players.map Player.stack ∧
    (s.recordAction i a amt).players.length = s.players.length := by
  unfold GameState.recordAction
  cases hp : s.players.get? i with
  | none => exact ⟨rfl, rfl, rfl⟩
  | some p =>
    refine ⟨rfl, map_set_eq Player.stack hp rfl, by simp⟩

theorem chips_eq_of (s s' : GameState) (i : Nat) (p q : Player) (d : Int)
    (hp : s.players.get? i = some p)
    (hpl : s'.players = s.players.set i q)
    (hpot : s'.pot = s.pot + d)
    (hd : d = p.stack - q.stack) :
    s'.pot + stacksSum s'.players = s.pot + stacksSum s.players ∧
    s'.players.length = s.players.length := by
  constructor
  · rw [hpot, hpl, stacksSum, stacksSum, sum_map_set Player.stack hp]
    omega
  · rw [hpl, List.length_set]

/-- Every execute_action call, successful or not, moves chips only between
the acting player's stack and the pot: pot plus total stacks is invariant,
and the seat count never changes. -/
theorem execute_action_preserves_chips (s : GameState) (i : Nat) (a : Action)
    (amount : Int) :
    (s.execute_action i a amount).2.pot
        + stacksSum (s.execute_action i a amount).2.players
      = s.pot + stacksSum s.players ∧
    (s.execute_action i a amount).2.players.length = s.players.length := by
  unfold GameState.execute_action
  cases hp : s.players.get? i with
  | none => exact ⟨rfl, rfl⟩
  | some p =>
    by_cases hfa : (p.folded || p.all_in) = true
    · simp [hfa]
    · have hfa' : (p.folded || p.all_in) = false := by
        cases h : (p.folded || p.all_in)
        · rfl
        · exact absurd h hfa
      simp only [hfa', Bool.false_eq_true, if_false]
      cases a with
      | FOLD =>
        obtain ⟨hpot, hstacks, hlen⟩ :=
          recordAction_fields { s with players := s.players.set i p.fold } i .FOLD amount
        have hmid := chips_eq_of s { s with players := s.players.set i p.fold } i p p.fold 0
          hp rfl (by simp) (by simp [Player.fold])
        have hm := hmid.1
        constructor
        · simp only [stacksSum] at hm ⊢
          rw [hpot, hstacks]
          exact hm
        · rw [hlen, List.length_set]
      | CHECK =>
        by_cases hc : s.current_bet > p.current_bet
        · simp [hc]
        · simp only [hc, if_false, if_neg hc]
          obtain ⟨hpot, hstacks, hlen⟩ := recordAction_fields s i .CHECK amount
          constructor
          · simp only [stacksSum]
            rw [hpot, hstacks]
          · exact hlen
      | CALL =>
        by_cases hc : s.current_bet - p.current_bet ≤ 0
        · simp [hc]
        · simp only [if_neg hc]
          obtain ⟨hpot, hstacks, hlen⟩ := recordAction_fields
            { s with players := s.players.set i (p.bet (s.current_bet - p.current_bet)).2,
                     pot := s.pot + (p.bet (s.current_bet - p.current_bet)).1 }
            i .CALL amount
          have hmid := chips_eq_of s
            { s with players := s.players.set i (p.bet (s.current_bet - p.current_bet)).2,
                     pot := s.pot + (p.bet (s.current_bet - p.current_bet)).1 }
            i p (p.bet (s.current_bet - p.current_bet)).2
            (p.bet (s.current_bet - p.current_bet)).1
            hp rfl rfl (bet_conservation p _)
          have hm := hmid.1
          constructor
          · simp only [stacksSum] at hm ⊢
            rw [hpot, hstacks]
            exact hm
          · rw [hlen, List.length_set]
      | RAISE =>
        by_cases hc : s.current_bet + amount - p.current_bet > p.stack
        · simp only [if_pos hc]
          obtain ⟨hpot, hstacks, hlen⟩ := recordAction_fields
            { s with players := s.players.set i (p.bet p.stack).2,
                     pot := s.pot + (p.bet p.stack).1,
                     current_bet := (p.bet p.stack).2.current_bet }
            i .RAISE amount
          have hmid := chips_eq_of s
            { s with players := s.players.set i (p.bet p.stack).2,
                     pot := s.pot + (p.bet p.stack).1,
                     current_bet := (p.bet p.stack).2.current_bet }
            i p (p.bet p.stack).2 (p.bet p.stack).1
            hp rfl rfl (bet_conservation p _)
          have hm := hmid.1
          constructor
          · simp only [stacksSum] at hm ⊢
            rw [hpot, hstacks]
            exact hm
          · rw [hlen, List.length_set]
        · simp only [if_neg hc]
          obtain ⟨hpot, hstacks, hlen⟩ := recordAction_fields
            { s with players := s.players.set i (p.bet (s.current_bet + amount - p.current_bet)).2,
                     pot := s.pot + (p.bet (s.current_bet + amount - p.current_bet)).1,
                     current_bet := s.current_bet + amount }
            i .RAISE amount
          have hmid := chips_eq_of s
            { s with players := s.players.set i (p.bet (s.current_bet + amount - p.current_bet)).2,
                     pot := s.pot + (p.bet (s.current_bet + amount - p.current_bet)).1,
                     current_bet := s.current_bet + amount }
            i p (p.bet (s.current_bet + amount - p.current_bet)).2
            (p.bet (s.current_bet + amount - p.current_bet)).1
            hp rfl rfl (bet_conservation p _)
          have hm := hmid.1
          constructor
          · simp only [stacksSum] at hm ⊢
            rw [hpot, hstacks]
            exact hm
          · rw [hlen, List.length_set]
      | ALL_IN =>
        obtain ⟨hpot, hstacks, hlen⟩ := recordAction_fields s i .ALL_IN amount
        constructor
        · simp only [stacksSum]
          rw [hpot, hstacks]
        · exact hlen

theorem ExecSeq_preserves_chips {s1 s2 : GameState} (h : ExecSeq s1 s2) :
    s2.pot + stacksSum s2.players = s1.pot + stacksSum s1.players ∧
    s2.players.length = s1.players.length := by
  induction h with
  | refl => exact ⟨rfl, rfl⟩
  | step t2 t3 i a amt hseq heq ih =>
    have h2 := execute_action_preserves_chips t2 i a amt
    rw [heq] at h2
    exact ⟨h2.1.trans ih.1, h2.2.trans ih.2⟩

theorem dealHoleCards_stacks :
    ∀ (ps : List Player) (deck : List Card) (ps' : List Player) (d' : List Card),
      dealHoleCards ps deck = some (ps', d') →
      ps'.map Player.stack = ps.map Player.stack ∧ ps'.length = ps.length := by
  intro ps
  induction ps with
  | nil =>
    intro deck ps' d' h
    simp only [dealHoleCards] at h
    cases h
    exact ⟨rfl, rfl⟩
  | cons p ps ih =>
    intro deck ps' d' h
    simp only [dealHoleCards] at h
    by_cases hf : p.folded
    · rw [if_pos hf] at h
      cases hrec : dealHoleCards ps deck with
      | none => simp only [hrec] at h; cases h
      | some pr =>
        obtain ⟨q, dd⟩ := pr
        simp only [hrec] at h
        rw [Option.some_inj, Prod.mk.injEq] at h
        obtain ⟨hps, hdd⟩ := h
        subst hps
        obtain ⟨h1, h2⟩ := ih deck q dd hrec
        exact ⟨by simp [h1], by simp [h2]⟩
    · rw [if_neg hf] at h
      cases hdeal : dealCards deck 2 with
      | none => simp only [hdeal] at h; cases h
      | some pr =>
        obtain ⟨cs, dd⟩ := pr
        simp only [hdeal] at h
        cases hrec : dealHoleCards ps dd with
        | none => simp only [hrec] at h; cases h
        | some pr2 =>
          obtain ⟨q, dd2⟩ := pr2
          simp only [hrec] at h
          rw [Option.some_inj, Prod.mk.injEq] at h
          obtain ⟨hps, hdd⟩ := h
          subst hps
          obtain ⟨h1, h2⟩ := ih dd q dd2 hrec
          exact ⟨by simp [Player.receive_cards, h1], by simp [h2]⟩

theorem post_blinds_chips (s : GameState) :
    s.post_blinds.pot + stacksSum s.post_blinds.players
      = s.pot + stacksSum s.players ∧
    s.post_blinds.players.length = s.players.length := by
  simp only [GameState.post_blinds]
  split
  · exact ⟨rfl, rfl⟩
  · rename_i sbp hsb
    split
    · exact ⟨rfl, rfl⟩
    · rename_i bbp hbb
      have hc1 := bet_conservation sbp (min s.small_blind sbp.stack)
      have hc2 := bet_conservation bbp (min s.big_blind bbp.stack)
      constructor
      · simp only [stacksSum]
        rw [sum_map_set Player.stack hbb, sum_map_set Player.stack hsb]
        omega
      · simp


theorem reset_stacks (ps : List Player) :
    (ps.map Player.reset_for_new_hand).map Player.stack = ps.map Player.stack ∧
    (ps.map Player.reset_for_new_hand).length = ps.length := by
  constructor
  · rw [List.map_map]
    rfl
  · rw [List.length_map]

theorem start_new_hand_chips (s : GameState) (d : List Card) (s1 : GameState)
    (h : s.start_new_hand d = some s1) :
    s1.pot + stacksSum s1.players = stacksSum s.players ∧
    s1.players.length = s.players.length := by
  simp only [GameState.start_new_hand] at h
  cases hd : dealHoleCards (s.players.map Player.reset_for_new_hand) d with
  | none => simp only [hd] at h; cases h
  | some pr =>
    obtain ⟨ps, dk⟩ := pr
    simp only [hd] at h
    cases h
    obtain ⟨hds, hdl⟩ := dealHoleCards_stacks _ _ _ _ hd
    obtain ⟨hrs, hrl⟩ := reset_stacks s.players
    have hpb := post_blinds_chips
      { s with hand_number := s.hand_number + 1, deck := dk, community_cards := [],
               pot := 0, side_pots := ([] : List Int), current_bet := 0,
               current_round := BettingRound.PREFLOP, players := ps }
    constructor
    · have h1 := hpb.1
      simp only [stacksSum] at h1 ⊢
      rw [hds, hrs] at h1
      omega
    · rw [hpb.2]
      simp only []
      rw [hdl, hrl]

/-- C7 (amended): after start_new_hand and any sequence of successful
execute_action calls, the pot equals the total chips the players have
committed this hand (their stacks at hand start minus their current
stacks; stacks at hand start equal the stacks before start_new_hand,
which Player.reset_for_new_hand preserves).  The claim's second clause -
that the table current_bet equals the maximum current_bet among
non-folded players - is false on the code; see the counterexample. -/
theorem pot_equals_committed_chips (s : GameState) (d : List Card)
    (s1 s2 : GameState) (hstart : s.start_new_hand d = some s1)
    (hseq : ExecSeq s1 s2) :
    s2.players.length = s.players.length ∧
    s2.pot = stacksSum s.players - stacksSum s2.players := by
  have h1 := start_new_hand_chips s d s1 hstart
  have h2 := ExecSeq_preserves_chips hseq
  refine ⟨h2.2.trans h1.2, ?_⟩
  have := h1.1
  have := h2.1
  omega

/-- Witness for C7 at the short-big-blind fixture, with the empty action
sequence. -/
theorem pot_equals_committed_chips_witness :
    (shortBlindState.start_new_hand standard52 = some shortBlindStarted) ∧
    (shortBlindStarted.players.length = shortBlindState.players.length ∧
      shortBlindStarted.pot
        = stacksSum shortBlindState.players - stacksSum shortBlindStarted.players) :=
  ⟨by decide,
    pot_equals_committed_chips shortBlindState standard52 shortBlindStarted
      shortBlindStarted (by decide) (ExecSeq.refl shortBlindStarted)⟩

/-- C7 counterexample: starting a hand in which the big blind can post
only 5 of the nominal 20 (while the small blind posts 10) leaves the
table current_bet at 5, strictly below the maximum current_bet (10) among
the non-folded players, refuting the claim's current_bet clause. -/
theorem current_bet_below_max_after_short_blind :
    (shortBlindState.start_new_hand standard52).map
        (fun t => (t.current_bet,
          (t.players.filter (fun p => !p.folded)).map Player.current_bet))
      = some ((5 : Int), [(5 : Int), (10 : Int)]) ∧
    ¬((5 : Int) = max 5 10) := by
  exact ⟨by decide, by decide⟩

/-! ### Claim C8: InsufficientCards on deal_flop -/

/-- C8 (amended): Deck.deal itself checks before popping, so a request for
more cards than remain fails with InsufficientCards leaving the deck
untouched, and deal_flop with fewer than 4 cards remaining fails with
InsufficientCards leaving the community cards, round, pot and players
unchanged; but the burn card is popped before the failing 3-card deal, so
with at least one card remaining the deck has already lost one card when
the exception propagates (state unchanged only for an empty deck). -/
theorem deal_flop_insufficient (s : GameState) (hs : s.deck.length < 4)
    (d : List Card) (n : Nat) (hn : d.length < n) :
    dealCards d n = none ∧
    ∃ s', s.deal_flop = .insufficient s' ∧
      s'.community_cards = s.community_cards ∧
      s'.current_round = s.current_round ∧
      s'.pot = s.pot ∧ s'.players = s.players ∧
      (s.deck.length = 0 → s' = s) ∧
      (0 < s.deck.length → s'.deck.length = s.deck.length - 1) := by
  constructor
  · unfold dealCards
    rw [if_pos (by omega)]
  · unfold GameState.deal_flop
    by_cases h0 : s.deck.length = 0
    · have h1 : dealCards s.deck 1 = none := by
        unfold dealCards
        rw [if_pos (by omega)]
      rw [h1]
      exact ⟨s, rfl, rfl, rfl, rfl, rfl, fun _ => rfl, fun hlt => absurd h0 (by omega)⟩
    · have h1 : dealCards s.deck 1
          = some (s.deck.reverse.take 1, (s.deck.reverse.drop 1).reverse) := by
        unfold dealCards
        rw [if_neg (by omega)]
      have hlen : ((s.deck.reverse.drop 1).reverse).length = s.deck.length - 1 := by
        simp
      have h3 : dealCards ((s.deck.reverse.drop 1).reverse) 3 = none := by
        unfold dealCards
        rw [if_pos (by omega)]
      rw [h1]
      dsimp only
      rw [h3]
      refine ⟨{ s with deck := (s.deck.reverse.drop 1).reverse }, rfl, rfl, rfl, rfl, rfl,
        fun hz => absurd hz h0, fun _ => hlen⟩

/-- Witness for C8 at the three-card-deck fixture and a 1-card request
from an empty deck. -/
theorem deal_flop_insufficient_witness :
    (threeCardDeckState.deck.length < 4 ∧ ([] : List Card).length < 1) ∧
    dealCards ([] : List Card) 1 = none :=
  ⟨⟨by decide, by decide⟩,
    (deal_flop_insufficient threeCardDeckState (by decide) [] 1 (by decide)).1⟩

/-- C8 counterexample: with exactly three cards in the deck, deal_flop
fails with InsufficientCards but has already consumed the burn card, so
the deck is not left unchanged as the claim states. -/
theorem deal_flop_mutates_deck_on_failure :
    threeCardDeckState.deal_flop = .insufficient ({ threeCardDeckState with deck := [⟨.TWO, .HEARTS⟩, ⟨.THREE, .HEARTS⟩] }) ∧
    ([(⟨.TWO, .HEARTS⟩ : Card), ⟨.THREE, .HEARTS⟩] : List Card) ≠ threeCardDeckState.deck := by
  exact ⟨by decide, by decide⟩

/-! ### Claim C10: termination of the reset_betting_round scan -/

/-- An active (non-folded, non-all-in) player sits at seat j. -/
def activeAt (ps : List Player) (j : Nat) : Prop :=
  ∃ p, ps.get? j = some p ∧ p.folded = false ∧ p.all_in = false

theorem findActiveFrom_none (ps : List Player)
    (hall : ∀ p ∈ ps, p.folded = true ∨ p.all_in = true) :
    ∀ (fuel pos : Nat), findActiveFrom ps pos fuel = none := by
  intro fuel
  induction fuel with
  | zero => intro pos; rfl
  | succ fuel ih =>
    intro pos
    unfold findActiveFrom
    cases hp : ps.get? pos with
    | none => rfl
    | some p =>
      dsimp only
      have hfa : (p.folded || p.all_in) = true := by
        rcases hall p (List.get?_mem hp) with h | h <;> simp [h]
      rw [if_pos hfa]
      exact ih _

theorem findActiveFrom_isSome (ps : List Player) :
    ∀ (fuel pos k : Nat), pos < ps.length → k < fuel →
      activeAt ps ((pos + k) % ps.length) →
      (findActiveFrom ps pos fuel).isSome = true := by
  intro fuel
  induction fuel with
  | zero => intro pos k _ hk; omega
  | succ fuel ih =>
    intro pos k hpos hk hact
    unfold findActiveFrom
    cases hp : ps.get? pos with
    | none =>
      have := List.get?_eq_none.1 hp
      omega
    | some p =>
      dsimp only
      by_cases hfa : (p.folded || p.all_in) = true
      · rw [if_pos hfa]
        cases k with
        | zero =>
          exfalso
          obtain ⟨q, hq, hqf, hqa⟩ := hact
          rw [Nat.add_zero, Nat.mod_eq_of_lt hpos, hp] at hq
          cases hq
          rw [hqf, hqa] at hfa
          cases hfa
        | succ k =>
          have hn : 0 < ps.length := by omega
          refine ih ((pos + 1) % ps.length) k (Nat.mod_lt _ hn) (by omega) ?_
          have harith : ((pos + 1) % ps.length + k) % ps.length
              = (pos + (k + 1)) % ps.length := by
            rw [Nat.mod_add_mod]
            congr 1
            omega
          rw [harith]
          exact hact
      · rw [if_neg hfa]
        rfl

/-- reset_betting_round succeeds whenever some player is active. -/
theorem reset_isSome_of_active (s : GameState)
    (hact : ∃ p ∈ s.players, p.folded = false ∧ p.all_in = false) :
    (s.reset_betting_round).isSome = true := by
  obtain ⟨p, hmem, hpf, hpa⟩ := hact
  obtain ⟨j, hj⟩ := List.mem_iff_get?.1 hmem
  have hjlt : j < s.players.length := (List.get?_eq_some.1 hj).1
  have hn : 0 < s.players.length := by omega
  simp only [GameState.reset_betting_round]
  set ps' := s.players.map (fun p => { p with current_bet := 0 }) with hps'
  have hlen : ps'.length = s.players.length := by
    rw [hps', List.length_map]
  have hjget : ps'.get? j = some ({ p with current_bet := 0 }) := by
    rw [hps', List.get?_map, hj]
    rfl
  have hstart : (s.dealer_position + 1) % ps'.length < ps'.length := by
    rw [hlen]
    exact Nat.mod_lt _ hn
  have hk : (j + ps'.length - (s.dealer_position + 1) % ps'.length) % ps'.length
      < ps'.length := by
    rw [hlen] at *
    exact Nat.mod_lt _ hn
  have hkey : ((s.dealer_position + 1) % ps'.length
      + (j + ps'.length - (s.dealer_position + 1) % ps'.length) % ps'.length)
        % ps'.length = j := by
    have hle : (s.dealer_position + 1) % ps'.length ≤ j + ps'.length := by
      have := hstart
      omega
    calc ((s.dealer_position + 1) % ps'.length
          + (j + ps'.length - (s.dealer_position + 1) % ps'.length) % ps'.length)
            % ps'.length
        = ((j + ps'.length - (s.dealer_position + 1) % ps'.length) % ps'.length
          + (s.dealer_position + 1) % ps'.length) % ps'.length := by
          rw [Nat.add_comm]
      _ = ((j + ps'.length - (s.dealer_position + 1) % ps'.length)
          + (s.dealer_position + 1) % ps'.length) % ps'.length := by
          rw [Nat.mod_add_mod]
      _ = (j + ps'.length) % ps'.length := by
          congr 1
          omega
      _ = j % ps'.length := Nat.add_mod_right j ps'.length
      _ = j := Nat.mod_eq_of_lt (by omega)
  have hsome := findActiveFrom_isSome ps' ps'.length
    ((s.dealer_position + 1) % ps'.length)
    ((j + ps'.length - (s.dealer_position + 1) % ps'.length) % ps'.length)
    hstart hk (by rw [hkey]; exact ⟨_, hjget, hpf, hpa⟩)
  obtain ⟨pos, hpos⟩ := Option.isSome_iff_exists.1 hsome
  rw [hpos]
  rfl

theorem deal_flop_not_hang_of_active (s : GameState)
    (hact : ∃ p ∈ s.players, p.folded = false ∧ p.all_in = false) :
    s.deal_flop ≠ .hang := by
  unfold GameState.deal_flop
  cases h1 : dealCards s.deck 1 with
  | none => simp
  | some pr1 =>
    obtain ⟨b, d1⟩ := pr1
    dsimp only
    cases h3 : dealCards d1 3 with
    | none => simp
    | some pr3 =>
      obtain ⟨cs, d2⟩ := pr3
      dsimp only
      have hsome := reset_isSome_of_active
        { s with deck := d2, community_cards := s.community_cards ++ cs,
                 current_round := BettingRound.FLOP } hact
      obtain ⟨t, ht⟩ := Option.isSome_iff_exists.1 hsome
      rw [ht]
      simp

theorem deal_turn_not_hang_of_active (s : GameState)
    (hact : ∃ p ∈ s.players, p.folded = false ∧ p.all_in = false) :
    s.deal_turn ≠ .hang := by
  unfold GameState.deal_turn
  cases h1 : dealCards s.deck 1 with
  | none => simp
  | some pr1 =>
    obtain ⟨b, d1⟩ := pr1
    dsimp only
    cases h3 : dealCards d1 1 with
    | none => simp
    | some pr3 =>
      obtain ⟨cs, d2⟩ := pr3
      dsimp only
      have hsome := reset_isSome_of_active
        { s with deck := d2, community_cards := s.community_cards ++ cs,
                 current_round := BettingRound.TURN } hact
      obtain ⟨t, ht⟩ := Option.isSome_iff_exists.1 hsome
      rw [ht]
      simp

theorem deal_river_not_hang_of_active (s : GameState)
    (hact : ∃ p ∈ s.players, p.folded = false ∧ p.all_in = false) :
    s.deal_river ≠ .hang := by
  unfold GameState.deal_river
  cases h1 : dealCards s.deck 1 with
  | none => simp
  | some pr1 =>
    obtain ⟨b, d1⟩ := pr1
    dsimp only
    cases h3 : dealCards d1 1 with
    | none => simp
    | some pr3 =>
      obtain ⟨cs, d2⟩ := pr3
      dsimp only
      have hsome := reset_isSome_of_active
        { s with deck := d2, community_cards := s.community_cards ++ cs,
                 current_round := BettingRound.RIVER } hact
      obtain ⟨t, ht⟩ := Option.isSome_iff_exists.1 hsome
      rw [ht]
      simp

/-- C10: in a non-empty game, reset_betting_round (and hence the flop,
turn and river deals) terminates whenever at least one player is neither
folded nor all-in; when every player is folded or all-in its seat-scanning
loop never terminates (no amount of fuel makes the scan return). -/
theorem reset_betting_round_termination (s : GameState)
    (_hne : s.players ≠ []) :
    ((∃ p ∈ s.players, p.folded = false ∧ p.all_in = false) →
      (s.reset_betting_round).isSome = true ∧
      s.deal_flop ≠ .hang ∧ s.deal_turn ≠ .hang ∧ s.deal_river ≠ .hang) ∧
    ((∀ p ∈ s.players, p.folded = true ∨ p.all_in = true) →
      ∀ fuel pos, findActiveFrom
        (s.players.map (fun p => { p with current_bet := 0 })) pos fuel = none) := by
  constructor
  · intro hact
    exact ⟨reset_isSome_of_active s hact, deal_flop_not_hang_of_active s hact,
      deal_turn_not_hang_of_active s hact, deal_river_not_hang_of_active s hact⟩
  · intro hall fuel pos
    refine findActiveFrom_none _ ?_ fuel pos
    intro q hq
    obtain ⟨p, hp, rfl⟩ := List.mem_map.1 hq
    rcases hall p hp with h | h
    · exact Or.inl h
    · exact Or.inr h

/-- Witness for C10 at the mixed-flags state (seat 2 is active). -/
theorem reset_betting_round_termination_witness :
    (mixedFlagsState.players ≠ []) ∧
    ((mixedFlagsState.reset_betting_round).isSome = true ∧
      mixedFlagsState.deal_flop ≠ .hang ∧ mixedFlagsState.deal_turn ≠ .hang ∧
      mixedFlagsState.deal_river ≠ .hang) :=
  ⟨by decide,
    (reset_betting_round_termination mixedFlagsState (by decide)).1
      ⟨mkPlayer "P3" 100 [], by decide, by decide, by decide⟩⟩

/-! ### Claim C5: pot splitting at showdown -/

theorem sum_payouts_range (per rem : Int) (hrem : 0 ≤ rem) :
    ∀ n : Nat, ((List.range n).map (fun i : Nat => per + if (i : Int) < rem then 1 else 0)).sum
      = (n : Int) * per + min rem (n : Int) := by
  intro n
  induction n with
  | zero => simp [hrem]
  | succ n ih =>
    rw [List.range_succ, List.map_append, List.sum_append]
    simp only [List.map_cons, List.map_nil, List.sum_cons, List.sum_nil]
    rw [ih]
    by_cases h : (n : Int) < rem
    · rw [if_pos h]
      have e1 : min rem (n : Int) = (n : Int) := by omega
      have e2 : min rem ((n : Nat) + 1 : Int) = (n : Int) + 1 := by omega
      rw [e1]
      push_cast
      rw [e2]
      ring
    · rw [if_neg h]
      have e1 : min rem (n : Int) = rem := by omega
      have e2 : min rem ((n : Nat) + 1 : Int) = rem := by omega
      rw [e1]
      push_cast
      rw [e2]
      ring

theorem splitPot_snd_eq_range (P : Int) (ws : List Player) :
    (splitPot P ws).map Prod.snd
      = (List.range ws.length).map
          (fun i : Nat => P.fdiv (ws.length : Int)
            + if (i : Int) < P.fmod (ws.length : Int) then 1 else 0) := by
  rw [splitPot]
  rw [List.map_map, ← List.enum_map_fst ws, List.map_map]
  rfl

theorem splitPot_fst (P : Int) (ws : List Player) :
    (splitPot P ws).map Prod.fst = ws := by
  rw [splitPot]
  rw [List.map_map]
  exact List.enum_map_snd ws

theorem splitPot_sum (P : Int) (ws : List Player) (hws : ws ≠ []) :
    ((splitPot P ws).map Prod.snd).sum = P := by
  have hn : 0 < ws.length := List.length_pos.2 hws
  have hnz : ((ws.length : Int)) ≠ 0 := by
    have : (0 : Int) < (ws.length : Int) := by exact_mod_cast hn
    omega
  have hpos : (0 : Int) < (ws.length : Int) := by exact_mod_cast hn
  have hrem0 : 0 ≤ P.fmod (ws.length : Int) := by
    rw [Int.fmod_eq_emod _ (by omega)]
    exact Int.emod_nonneg P hnz
  have hremlt : P.fmod (ws.length : Int) < (ws.length : Int) :=
    Int.fmod_lt_of_pos P hpos
  rw [splitPot_snd_eq_range, sum_payouts_range _ _ hrem0]
  have hmin : min (P.fmod (ws.length : Int)) ((ws.length : Nat) : Int)
      = P.fmod (ws.length : Int) := by omega
  rw [hmin]
  exact Int.fdiv_add_fmod P (ws.length : Int)

theorem evalHands_length :
    ∀ (ps : List Player) (community : List Card) (phs : List (Player × HandStrength)),
      evalHands ps community = some phs → phs.length = ps.length := by
  intro ps
  induction ps with
  | nil =>
    intro community phs h
    simp only [evalHands] at h
    cases h
    rfl
  | cons p ps ih =>
    intro community phs h
    simp only [evalHands] at h
    cases he : evaluate_hand (p.hole_cards ++ community) with
    | none => simp only [he] at h; cases h
    | some hs =>
      simp only [he] at h
      cases hrec : evalHands ps community with
      | none => simp only [hrec] at h; cases h
      | some rest =>
        simp only [hrec] at h
        cases h
        simp [ih community rest hrec]

theorem length_insertHandDesc (a : Player × HandStrength)
    (l : List (Player × HandStrength)) :
    (insertHandDesc a l).length = l.length + 1 := by
  induction l with
  | nil => rfl
  | cons b bs ih =>
    simp only [insertHandDesc]
    split
    · simp [ih]
    · simp

theorem length_sortHandsDesc (l : List (Player × HandStrength)) :
    (sortHandsDesc l).length = l.length := by
  induction l with
  | nil => rfl
  | cons a as ih =>
    simp only [sortHandsDesc, List.foldr_cons] at *
    rw [length_insertHandDesc, ih, List.length_cons]

set_option maxHeartbeats 2000000 in
/-- C5: for every pot P and non-empty winner list of W tied players,
the split pays each winner P fdiv W with one extra chip for each of the
first P fmod W winners in seating order, the integer payouts sum exactly
to P, and determine_winners at a showdown pays exactly splitPot of a
non-empty tied-winner list; in particular a pot of 100 split three ways
pays 34, 33, 33 in seating order. -/
theorem determine_winners_split (P : Int) (ws : List Player) (hws : ws ≠ [])
    (s : GameState) (phs : List (Player × HandStrength))
    (hact : 2 ≤ (s.players.filter (fun p => !p.folded)).length)
    (hev : evalHands (s.players.filter (fun p => !p.folded)) s.community_cards
      = some phs) :
    ((splitPot P ws).map Prod.fst = ws ∧
     ((splitPot P ws).map Prod.snd).sum = P ∧
     ∀ i : Nat, i < ws.length →
       ((splitPot P ws).map Prod.snd).get? i
         = some (P.fdiv (ws.length : Int)
             + if (i : Int) < P.fmod (ws.length : Int) then 1 else 0)) ∧
    (∃ winners : List Player, winners ≠ [] ∧
      s.determine_winners = some (splitPot s.pot winners)) ∧
    tie3State.determine_winners
      = some [(mkPlayer "P1" 500 [⟨.TWO, .HEARTS⟩, ⟨.THREE, .HEARTS⟩], 34),
              (mkPlayer "P2" 500 [⟨.TWO, .DIAMONDS⟩, ⟨.THREE, .DIAMONDS⟩], 33),
              (mkPlayer "P3" 500 [⟨.TWO, .CLUBS⟩, ⟨.THREE, .CLUBS⟩], 33)] := by
  refine ⟨⟨splitPot_fst P ws, splitPot_sum P ws hws, ?_⟩, ?_, by decide⟩
  · intro i hi
    rw [splitPot_snd_eq_range, List.get?_map, List.get?_range hi]
    rfl
  · simp only [GameState.determine_winners]
    cases hfa : s.players.filter (fun p => !p.folded) with
    | nil => rw [hfa] at hact; simp at hact
    | cons a t =>
      cases t with
      | nil => rw [hfa] at hact; simp at hact
      | cons b rest =>
        dsimp only
        rw [hfa] at hev
        rw [hev]
        dsimp only
        have hlen : (sortHandsDesc phs).length = (a :: b :: rest).length := by
          rw [length_sortHandsDesc, evalHands_length _ _ _ hev]
        cases hs : sortHandsDesc phs with
        | nil => rw [hs] at hlen; simp at hlen
        | cons ph rest' =>
          dsimp only
          refine ⟨((ph :: rest').takeWhile (fun q => hsEq q.2 ph.2)).map Prod.fst,
            ?_, rfl⟩
          rw [List.takeWhile_cons, if_pos hsEq_of_eq]
          simp

set_option maxHeartbeats 2000000 in
/-- Witness for C5 at the three-way royal-flush tie with a pot of 100. -/
theorem determine_winners_split_witness :
    (([mkPlayer "P1" 500 [⟨.TWO, .HEARTS⟩, ⟨.THREE, .HEARTS⟩],
       mkPlayer "P2" 500 [⟨.TWO, .DIAMONDS⟩, ⟨.THREE, .DIAMONDS⟩],
       mkPlayer "P3" 500 [⟨.TWO, .CLUBS⟩, ⟨.THREE, .CLUBS⟩]] : List Player) ≠ [] ∧
      2 ≤ (tie3State.players.filter (fun p => !p.folded)).length) ∧
    ((splitPot 100 [mkPlayer "P1" 500 [⟨.TWO, .HEARTS⟩, ⟨.THREE, .HEARTS⟩],
       mkPlayer "P2" 500 [⟨.TWO, .DIAMONDS⟩, ⟨.THREE, .DIAMONDS⟩],
       mkPlayer "P3" 500 [⟨.TWO, .CLUBS⟩, ⟨.THREE, .CLUBS⟩]]).map Prod.snd).sum
      = 100 :=
  ⟨⟨by decide, by decide⟩,
    ((determine_winners_split 100
      [mkPlayer "P1" 500 [⟨.TWO, .HEARTS⟩, ⟨.THREE, .HEARTS⟩],
       mkPlayer "P2" 500 [⟨.TWO, .DIAMONDS⟩, ⟨.THREE, .DIAMONDS⟩],
       mkPlayer "P3" 500 [⟨.TWO, .CLUBS⟩, ⟨.THREE, .CLUBS⟩]] (by decide)
      tie3State
      [(mkPlayer "P1" 500 [⟨.TWO, .HEARTS⟩, ⟨.THREE, .HEARTS⟩], ⟨.ROYAL_FLUSH, 14, 0, []⟩),
       (mkPlayer "P2" 500 [⟨.TWO, .DIAMONDS⟩, ⟨.THREE, .DIAMONDS⟩], ⟨.ROYAL_FLUSH, 14, 0, []⟩),
       (mkPlayer "P3" 500 [⟨.TWO, .CLUBS⟩, ⟨.THREE, .CLUBS⟩], ⟨.ROYAL_FLUSH, 14, 0, []⟩)]
      (by decide) (by decide)).1).2.1⟩

end PokerAI
